import Mathlib

/-!
# xlsxmd5: the checksum pipeline

A model of `main.go`: the walk of stage 1, the ten checksum workers of stage 2,
the closer of stage 3 and the sheet written by the final stage, with the
goroutines as a transition system over explicit schedules.
-/

namespace Xlsxmd5

/-- A byte, the element type of Go's `[]byte`. -/
abbrev Byte := Fin 256

/-- Size of an MD5 checksum in bytes (`md5.Size`). -/
def md5Size : Nat := 16

/-- The Go array type `[md5.Size]byte`. -/
structure Checksum where
  bytes : List Byte
  size : bytes.length = md5Size
deriving DecidableEq

namespace MD5

/-! ## `crypto/md5`: the MD5 function of RFC 1321, on 32-bit words kept as `Nat` -/

def mask32 : Nat := 2 ^ 32

/-- Per-round left-rotation amounts. -/
def shifts : List Nat :=
  [7, 12, 17, 22, 7, 12, 17, 22, 7, 12, 17, 22, 7, 12, 17, 22,
   5, 9, 14, 20, 5, 9, 14, 20, 5, 9, 14, 20, 5, 9, 14, 20,
   4, 11, 16, 23, 4, 11, 16, 23, 4, 11, 16, 23, 4, 11, 16, 23,
   6, 10, 15, 21, 6, 10, 15, 21, 6, 10, 15, 21, 6, 10, 15, 21]

/-- The sine-derived additive constants. -/
def table : List Nat :=
  [0xd76aa478, 0xe8c7b756, 0x242070db, 0xc1bdceee, 0xf57c0faf, 0x4787c62a, 0xa8304613, 0xfd469501,
   0x698098d8, 0x8b44f7af, 0xffff5bb1, 0x895cd7be, 0x6b901122, 0xfd987193, 0xa679438e, 0x49b40821,
   0xf61e2562, 0xc040b340, 0x265e5a51, 0xe9b6c7aa, 0xd62f105d, 0x02441453, 0xd8a1e681, 0xe7d3fbc8,
   0x21e1cde6, 0xc33707d6, 0xf4d50d87, 0x455a14ed, 0xa9e3e905, 0xfcefa3f8, 0x676f02d9, 0x8d2a4c8a,
   0xfffa3942, 0x8771f681, 0x6d9d6122, 0xfde5380c, 0xa4beea44, 0x4bdecfa9, 0xf6bb4b60, 0xbebfbc70,
   0x289b7ec6, 0xeaa127fa, 0xd4ef3085, 0x04881d05, 0xd9d4d039, 0xe6db99e5, 0x1fa27cf8, 0xc4ac5665,
   0xf4292244, 0x432aff97, 0xab9423a7, 0xfc93a039, 0x655b59c3, 0x8f0ccc92, 0xffeff47d, 0x85845dd1,
   0x6fa87e4f, 0xfe2ce6e0, 0xa3014314, 0x4e0811a1, 0xf7537e82, 0xbd3af235, 0x2ad7d2bb, 0xeb86d391]

/-- Bitwise complement of a 32-bit word. -/
def not32 (x : Nat) : Nat := x ^^^ (mask32 - 1)

/-- Rotate a 32-bit word left by `c` bits. -/
def rotl32 (x c : Nat) : Nat := ((x <<< c) ||| (x >>> (32 - c))) % mask32

/-- The chaining state `(a, b, c, d)`. -/
structure Words where
  a : Nat
  b : Nat
  c : Nat
  d : Nat

def initWords : Words := ⟨0x67452301, 0xefcdab89, 0x98badcfe, 0x10325476⟩

/-- The `k`-th little-endian 32-bit word of a block of bytes. -/
def word (block : List Nat) (k : Nat) : Nat :=
  block.getD (4 * k) 0 + 256 * block.getD (4 * k + 1) 0
    + 65536 * block.getD (4 * k + 2) 0 + 16777216 * block.getD (4 * k + 3) 0

/-- One of the 64 steps on a block. -/
def round (block : List Nat) (w : Words) (i : Nat) : Words :=
  let f :=
    if i < 16 then (w.b &&& w.c) ||| (not32 w.b &&& w.d)
    else if i < 32 then (w.d &&& w.b) ||| (not32 w.d &&& w.c)
    else if i < 48 then w.b ^^^ w.c ^^^ w.d
    else w.c ^^^ (w.b ||| not32 w.d)
  let g :=
    if i < 16 then i
    else if i < 32 then (5 * i + 1) % 16
    else if i < 48 then (3 * i + 5) % 16
    else (7 * i) % 16
  let t := (f + w.a + table.getD i 0 + word block g) % mask32
  ⟨w.d, (w.b + rotl32 t (shifts.getD i 0)) % mask32, w.b, w.c⟩

/-- Absorb one 64-byte block. -/
def blockStep (w : Words) (block : List Nat) : Words :=
  let r := (List.range 64).foldl (round block) w
  ⟨(w.a + r.a) % mask32, (w.b + r.b) % mask32, (w.c + r.c) % mask32, (w.d + r.d) % mask32⟩

/-- Little-endian bytes of `x`, `n` of them. -/
def leBytes : Nat → Nat → List Nat
  | 0, _ => []
  | n + 1, x => x % 256 :: leBytes n (x / 256)

/-- The padded message: a `0x80` byte, zeros up to 56 modulo 64, then the bit
length as a 64-bit little-endian number. -/
def pad (msg : List Nat) : List Nat :=
  let n := msg.length
  msg ++ 0x80 :: List.replicate ((119 - n % 64) % 64) 0 ++ leBytes 8 ((8 * n) % 2 ^ 64)

/-- Absorb `n` consecutive 64-byte blocks of `bytes`. -/
def absorb : Nat → Words → List Nat → Words
  | 0, w, _ => w
  | n + 1, w, bytes => absorb n (blockStep w (bytes.take 64)) (bytes.drop 64)

/-- The four state words after the whole padded message. -/
def digestWords (msg : List Nat) : Words :=
  let p := pad msg
  absorb (p.length / 64) initWords p

/-- The byte of `x` at little-endian position `k`. -/
def byteAt (x k : Nat) : Byte := ⟨(x / 256 ^ k) % 256, Nat.mod_lt _ (by decide)⟩

end MD5

/-- Go's `md5.Sum(data)`. -/
def md5Sum (data : List Byte) : Checksum :=
  let w := MD5.digestWords (data.map Fin.val)
  ⟨[MD5.byteAt w.a 0, MD5.byteAt w.a 1, MD5.byteAt w.a 2, MD5.byteAt w.a 3,
    MD5.byteAt w.b 0, MD5.byteAt w.b 1, MD5.byteAt w.b 2, MD5.byteAt w.b 3,
    MD5.byteAt w.c 0, MD5.byteAt w.c 1, MD5.byteAt w.c 2, MD5.byteAt w.c 3,
    MD5.byteAt w.d 0, MD5.byteAt w.d 1, MD5.byteAt w.d 2, MD5.byteAt w.d 3], rfl⟩

/-! ## `fmt.Sprintf("%x", ...)` on a byte array -/

/-- The lowercase hexadecimal digit of a value below 16. -/
def hexDigit (n : Nat) : Char := "0123456789abcdef".toList.getD n '0'

/-- Two lowercase hexadecimal digits of one byte, high nibble first. -/
def hexByte (b : Byte) : List Char := [hexDigit (b.val / 16), hexDigit (b.val % 16)]

/-- The `%x` rendering of a byte sequence: two digits per byte, no separator. -/
def hexChars (bs : List Byte) : List Char := bs.flatMap hexByte

/-- Go's `fmt.Sprintf("%x", checkSum)` for a `[md5.Size]byte`. -/
def sprintfHex (c : Checksum) : String := String.mk (hexChars c.bytes)

/-- The value of a lowercase hexadecimal digit. -/
def hexVal (c : Char) : Option Nat :=
  if 48 ≤ c.toNat ∧ c.toNat ≤ 57 then some (c.toNat - 48)
  else if 97 ≤ c.toNat ∧ c.toNat ≤ 102 then some (c.toNat - 87)
  else none

/-- Reading a hexadecimal string back into bytes, two digits per byte. -/
def hexDecode : List Char → Option (List Byte)
  | [] => some []
  | [_] => none
  | hi :: lo :: rest =>
    match hexVal hi, hexVal lo, hexDecode rest with
    | some a, some b, some bs => some (Fin.ofNat (16 * a + b) :: bs)
    | _, _, _ => none

/-- Bytes of an ASCII string. -/
def bytesOf (s : String) : List Byte := s.toList.map (fun c => Fin.ofNat c.toNat)

namespace Regexp

/-! ## `regexp`: the fragment of Go's regular expressions used here

Patterns are read the way `regexp/syntax` reads them under the Perl flags of
`regexp.Compile`: one character at a time, with a stack of open groups.  The
fragment covers literals, `.`, `^`, `$`, the postfix operators `*`, `+`, `?`
(and their non-greedy forms), `|`, capturing groups and backslash followed by
an ASCII punctuation character.  Every other construct (classes, counted
repetition, `(?` groups, letter and digit escapes) is reported as
`ErrorCode.unmodelled` at the character where it starts; the parser's limits
on nesting depth and size are not modelled. -/

/-- Syntax errors of `regexp/syntax`, and a marker for syntax left out of this model. -/
inductive ErrorCode
  | missingRepeatArgument
  | invalidRepeatOp
  | missingParen
  | unexpectedParen
  | trailingBackslash
  | unmodelled
deriving DecidableEq, Repr

/-- Parsed expressions. -/
inductive Re
  | noMatch
  | emptyMatch
  | literal (c : Char)
  | anyCharNotNL
  | anyChar
  | beginText
  | endText
  | star (r : Re)
  | plus (r : Re)
  | quest (r : Re)
  | concat (r s : Re)
  | alternate (r s : Re)
deriving DecidableEq, Repr

/-- What the previous character of the pattern was, as far as the next one cares. -/
inductive Prev
  | other
  | repeatOp
  | lazyRepeatOp
  | backslash
  | leftParen
deriving DecidableEq, Repr

/-- An open group: the finished alternatives (latest first) and the pieces
of the alternative being read (latest first). -/
structure Frame where
  alts : List Re
  cur : List Re
deriving Repr

/-- Parser state: the innermost group, the enclosing ones, and the previous character. -/
structure Parser where
  top : Frame
  outer : List Frame
  prev : Prev
deriving Repr

/-- Concatenation of pieces given latest first; nothing is the empty match. -/
def collapseConcat : List Re → Re
  | [] => .emptyMatch
  | r :: rs => rs.foldl (fun acc x => .concat x acc) r

/-- Alternation of alternatives given latest first. -/
def collapseAlternate : List Re → Re
  | [] => .noMatch
  | r :: rs => rs.foldl (fun acc x => .alternate x acc) r

/-- Close a group: its expression. -/
def Frame.close (f : Frame) : Re := collapseAlternate (collapseConcat f.cur :: f.alts)

def Parser.push (p : Parser) (r : Re) : Parser :=
  { p with top := { p.top with cur := r :: p.top.cur }, prev := .other }

/-- A postfix operator applied to the latest piece. -/
def Parser.repeat (p : Parser) (op : Re → Re) : Except ErrorCode Parser :=
  match p.prev with
  | .repeatOp => .error .invalidRepeatOp
  | .lazyRepeatOp => .error .invalidRepeatOp
  | _ =>
    match p.top.cur with
    | [] => .error .missingRepeatArgument
    | r :: rs => .ok { p with top := { p.top with cur := op r :: rs }, prev := .repeatOp }

def isAsciiPunct (c : Char) : Bool :=
  c.toNat < 128 && !(c.isAlphanum) && 32 < c.toNat && c.toNat != 127

/-- One character of the pattern. -/
def parseChar (p : Parser) (c : Char) : Except ErrorCode Parser :=
  if p.prev = .backslash then
    if isAsciiPunct c then .ok (p.push (.literal c)) else .error .unmodelled
  else if c = '\\' then .ok { p with prev := .backslash }
  else if c = '*' then p.repeat .star
  else if c = '+' then p.repeat .plus
  else if c = '?' then
    if p.prev = .repeatOp then .ok { p with prev := .lazyRepeatOp }
    else if p.prev = .leftParen then .error .unmodelled
    else p.repeat .quest
  else if c = '(' then
    .ok { top := ⟨[], []⟩, outer := p.top :: p.outer, prev := .leftParen }
  else if c = ')' then
    match p.outer with
    | [] => .error .unexpectedParen
    | f :: fs => .ok { top := { f with cur := p.top.close :: f.cur }, outer := fs, prev := .other }
  else if c = '|' then
    .ok { p with top := ⟨collapseConcat p.top.cur :: p.top.alts, []⟩, prev := .other }
  else if c = '^' then .ok (p.push .beginText)
  else if c = '$' then .ok (p.push .endText)
  else if c = '.' then .ok (p.push .anyCharNotNL)
  else if c = '[' ∨ c = '\x7b' then .error .unmodelled
  else .ok (p.push (.literal c))

/-- The pattern read from left to right. -/
def parseChars : List Char → Parser → Except ErrorCode Parser
  | [], p => .ok p
  | c :: cs, p =>
    match parseChar p c with
    | .ok q => parseChars cs q
    | .error e => .error e

/-- `syntax.Parse(pattern, syntax.Perl)`. -/
def parse (pattern : String) : Except ErrorCode Re :=
  match parseChars pattern.toList ⟨⟨[], []⟩, [], .other⟩ with
  | .error e => .error e
  | .ok p =>
    if p.prev = .backslash then .error .trailingBackslash
    else
      match p.outer with
      | [] => .ok p.top.close
      | _ :: _ => .error .missingParen

/-- Whether `r` matches the empty string at a position that is (or is not)
the start and the end of the text. -/
def nullable (atStart atEnd : Bool) : Re → Bool
  | .noMatch => false
  | .emptyMatch => true
  | .literal _ => false
  | .anyCharNotNL => false
  | .anyChar => false
  | .beginText => atStart
  | .endText => atEnd
  | .star _ => true
  | .plus r => nullable atStart atEnd r
  | .quest _ => true
  | .concat r s => nullable atStart atEnd r && nullable atStart atEnd s
  | .alternate r s => nullable atStart atEnd r || nullable atStart atEnd s

/-- What remains of `r` after reading `c`. -/
def deriv (atStart : Bool) (c : Char) : Re → Re
  | .noMatch => .noMatch
  | .emptyMatch => .noMatch
  | .literal d => if c = d then .emptyMatch else .noMatch
  | .anyCharNotNL => if c = '\n' then .noMatch else .emptyMatch
  | .anyChar => .emptyMatch
  | .beginText => .noMatch
  | .endText => .noMatch
  | .star r => .concat (deriv atStart c r) (.star r)
  | .plus r => .concat (deriv atStart c r) (.star r)
  | .quest r => deriv atStart c r
  | .concat r s =>
    if nullable atStart false r then .alternate (.concat (deriv atStart c r) s) (deriv atStart c s)
    else .concat (deriv atStart c r) s
  | .alternate r s => .alternate (deriv atStart c r) (deriv atStart c s)

/-- Whether `r` matches the whole remaining text. -/
def matchesAll (atStart : Bool) (r : Re) : List Char → Bool
  | [] => nullable atStart true r
  | c :: cs => matchesAll false (deriv atStart c r) cs

/-- `(*Regexp).Match`: whether the text contains a match of `r`. -/
def Re.matches (r : Re) (text : List Char) : Bool :=
  matchesAll true (.concat (.star .anyChar) (.concat r (.star .anyChar))) text

end Regexp

/-- Go's `regexp.Match(pattern, []byte(name))`: a pattern that does not
compile gives `false` and the error. -/
def goRegexpMatch (pattern name : String) : Bool × Option Regexp.ErrorCode :=
  match Regexp.parse pattern with
  | .error e => (false, some e)
  | .ok r => (r.matches name.toList, none)

/-! ## The program's types -/

/-- The command-line arguments (`args`). -/
structure args where
  directory : String
  pattern : String
  output : String
deriving DecidableEq

/-- One checksum record (`md5result`). -/
structure md5result where
  path : String
  checkSum : Checksum
  name : String
deriving DecidableEq

/-- Number of stage-2 goroutines. -/
abbrev _NumberOf2ndStageGoroutines : Nat := 10

/-- Index of a stage-2 goroutine: the loop variable `i`. -/
abbrev WorkerId := Fin _NumberOf2ndStageGoroutines

/-- The errors a task of the group can return: the walk's error, the error of
`ioutil.ReadFile`, or `ctx.Err()` of the cancelled context. -/
inductive GoError
  | walk (code : Nat)
  | read (code : Nat)
  | canceled
deriving DecidableEq

/-! ## The environment: file system and libraries -/

/-- One call of the walk function by `filepath.Walk`: the path, `info.Name()`,
`info.IsDir()` and the error handed to the callback. -/
structure Visit where
  path : String
  name : String
  isDir : Bool
  err : Option Nat
deriving DecidableEq

/-- What the program runs against.  `walk root` lists the calls `filepath.Walk`
makes on `root`, in order, for as long as the callback returns nil;
`readFile` is `ioutil.ReadFile`; `regexpMatch` is `regexp.Match`. -/
structure Env where
  walk : String → List Visit
  readFile : String → Except Nat (List Byte)
  regexpMatch : String → String → Bool × Option Regexp.ErrorCode

/-- The bytes `ioutil.ReadFile` gives for `p`; no bytes when the read fails. -/
def fileContent (env : Env) (p : String) : List Byte :=
  match env.readFile p with
  | .ok data => data
  | .error _ => []

/-- A directory listing in the order `filepath.Walk` reads it: regular files
and readable sub-directories. -/
inductive Listing
  | nil
  | file (name : String) (rest : Listing)
  | dir (name : String) (children : Listing) (rest : Listing)

/-- The path of an entry: `filepath.Join(dir, name)` for a clean `dir`, with `/` as separator. -/
def joinPath (dir name : String) : String :=
  if dir = "." then name else dir ++ "/" ++ name

/-- The callback calls `filepath.Walk` makes below directory `dir`. -/
def walkListing (dir : String) : Listing → List Visit
  | .nil => []
  | .file n rest => ⟨joinPath dir n, n, false, none⟩ :: walkListing dir rest
  | .dir n children rest =>
    ⟨joinPath dir n, n, true, none⟩ :: (walkListing (joinPath dir n) children ++ walkListing dir rest)

/-- The callback calls of `filepath.Walk(root, fn)` on a readable directory `root`. -/
def filepathWalk (root : String) (l : Listing) : List Visit :=
  ⟨root, root, true, none⟩ :: walkListing root l

/-! ## `run`: flags -/

/-- The flags a command line gives, for a command line `flag.Parse()` accepts;
`none` is a flag left out. -/
structure Flags where
  d : Option String
  p : Option String
  o : Option String

/-- The three `flag.StringVar` declarations and a `flag.Parse()` that accepts
the command line: a flag left out keeps its default.  The command lines
`flag.Parse()` rejects are those of `CommandLine.rejected`. -/
def parseFlags (f : Flags) : args :=
  { directory := f.d.getD ".", pattern := f.p.getD "*.*", output := f.o.getD "" }

/-- The defaults `run` fills in for an empty directory or pattern. -/
def fillDefaults (a : args) : args :=
  { a with
    directory := if a.directory = "" then "." else a.directory
    pattern := if a.pattern = "" then "*.*" else a.pattern }

/-! ## The pipeline as a transition system

Each goroutine is a small program counter; one `Action` is one atomic step of
one goroutine (a channel hand-off is one step of both ends).  A task's return
is taken together with the group's bookkeeping for it (the deferred close,
`errOnce`, `cancel`).  The worker's local `count` is never read and is left out. -/

/-- Stage 1, the goroutine of `start1stStage`. -/
inductive Disc
  | walking (rest : List Visit)
  | sending (path : String) (rest : List Visit)
  | polling (rest : List Visit)
  | returned (err : Option GoError)
deriving DecidableEq

/-- Stage 2, one goroutine of `start2ndStage`. -/
inductive Worker
  | receiving
  | reading (p : String)
  | offering (result : md5result)
  | returned (err : Option GoError)
deriving DecidableEq

/-- Stage 3, the goroutine of `start3rdStage`. -/
inductive Closer
  | waiting
  | closing
  | done
deriving DecidableEq

/-- The state of the whole pipeline. -/
structure State where
  disc : Disc
  workers : WorkerId → Worker
  closer : Closer
  /-- `execFinalStage` has left its `range md5Ch` loop. -/
  sinkDone : Bool
  /-- The records `execFinalStage` has received, in arrival order. -/
  received : List md5result
  filePathChClosed : Bool
  /-- How many times `close(md5Ch)` has run. -/
  md5ChCloses : Nat
  /-- `errGrpCtx` is done. -/
  cancelled : Bool
  /-- The group's error: the first non-nil error a task returned. -/
  err : Option GoError
  /-- A send on, or a close of, a closed channel has happened. -/
  panicked : Bool

/-- The steps of the pipeline. -/
inductive Action
  | visit
  | poll
  | handoff (i : WorkerId)
  | drained (i : WorkerId)
  | read (i : WorkerId)
  | deliver (i : WorkerId)
  | abandon (i : WorkerId)
  | waitReturns
  | closeMd5Ch
  | sinkExit
deriving DecidableEq

/-- The state after `run` has started the three stages and entered `execFinalStage`. -/
def State.init (env : Env) (cmdArgs : args) : State :=
  { disc := .walking (env.walk cmdArgs.directory)
    workers := fun _ => .receiving
    closer := .waiting
    sinkDone := false
    received := []
    filePathChClosed := false
    md5ChCloses := 0
    cancelled := false
    err := none
    panicked := false }

/-- The group's bookkeeping when a task returns `e`: the first non-nil error
is kept and cancels the context. -/
def State.taskReturn (s : State) (e : Option GoError) : State :=
  match e, s.err with
  | some x, none => { s with err := some x, cancelled := true }
  | _, _ => s

/-- Stage 1 returns `e`: the deferred `close(filePathCh)`, then the bookkeeping. -/
def State.discReturn (s : State) (e : Option GoError) : State :=
  ({ s with disc := .returned e, filePathChClosed := true }).taskReturn e

/-- Worker `i` returns `e`. -/
def State.workerReturn (s : State) (i : WorkerId) (e : Option GoError) : State :=
  ({ s with workers := Function.update s.workers i (.returned e) }).taskReturn e

/-- Whether every task of the group has returned: what `errGrp.Wait()` waits for. -/
def State.allReturned (s : State) : Prop :=
  (∃ e, s.disc = .returned e) ∧ ∀ i, ∃ e, s.workers i = .returned e

def Disc.isReturned : Disc → Bool
  | .returned _ => true
  | _ => false

def Worker.isReturned : Worker → Bool
  | .returned _ => true
  | _ => false

/-- The executable form of `State.allReturned`. -/
def State.allReturnedB (s : State) : Bool :=
  s.disc.isReturned && decide (∀ i, (s.workers i).isReturned = true)

/-- The walk function of stage 1 up to its channel send. -/
inductive WalkFnHead
  | fail (e : GoError)
  | next
  | push (path : String)
  | noPush
deriving DecidableEq

/-- The callback handed to `filepath.Walk`, from its entry to the send:
an error is returned as is, a directory is passed over, and a file is pushed
when `regexp.Match` on its name says so (the error of `regexp.Match` is dropped). -/
def walkFn (env : Env) (cmdArgs : args) (v : Visit) : WalkFnHead :=
  match v.err with
  | some e => .fail (.walk e)
  | none =>
    if v.isDir then .next
    else if (env.regexpMatch cmdArgs.pattern v.name).1 then .push v.path
    else .noPush

/-- The name of worker `i`: `fmt.Sprintf("goroutine-%02d", i + 1)`. -/
def workerName (i : WorkerId) : String :=
  let n := i.val + 1
  "goroutine-" ++ String.mk [Char.ofNat (48 + n / 10), Char.ofNat (48 + n % 10)]

/-- Steps of the goroutine of `start1stStage`. -/
def start1stStage (env : Env) (cmdArgs : args) (s : State) : Action → Option State
  | .visit =>
    match s.disc with
    | .walking [] => some (s.discReturn none)
    | .walking (v :: rest) =>
      match walkFn env cmdArgs v with
      | .fail e => some (s.discReturn (some e))
      | .next => some { s with disc := .walking rest }
      | .push p => some { s with disc := .sending p rest }
      | .noPush => some { s with disc := .polling rest }
    | _ => none
  | .poll =>
    match s.disc with
    | .polling rest =>
      if s.cancelled then some (s.discReturn (some .canceled))
      else some { s with disc := .walking rest }
    | _ => none
  | _ => none

/-- Steps of goroutine `i` of `start2ndStage`; `handoff` is also the step of
stage 1 whose send it completes, `deliver` also the receive of `execFinalStage`. -/
def start2ndStage (env : Env) (s : State) (i : WorkerId) : Action → Option State
  | .handoff _ =>
    match s.disc, s.workers i with
    | .sending p rest, .receiving =>
      some { s with disc := .polling rest, workers := Function.update s.workers i (.reading p) }
    | _, _ => none
  | .drained _ =>
    match s.workers i with
    | .receiving => if s.filePathChClosed then some (s.workerReturn i none) else none
    | _ => none
  | .read _ =>
    match s.workers i with
    | .reading p =>
      match env.readFile p with
      | .error e => some (s.workerReturn i (some (.read e)))
      | .ok data =>
        let result : md5result := { path := p, checkSum := md5Sum data, name := workerName i }
        some { s with workers := Function.update s.workers i (.offering result) }
    | _ => none
  | .deliver _ =>
    match s.workers i with
    | .offering r =>
      if 0 < s.md5ChCloses then some { s with panicked := true }
      else if s.sinkDone then none
      else some { s with workers := Function.update s.workers i .receiving,
                         received := s.received ++ [r] }
    | _ => none
  | .abandon _ =>
    match s.workers i with
    | .offering _ => if s.cancelled then some (s.workerReturn i (some .canceled)) else none
    | _ => none
  | _ => none

/-- Steps of the goroutine of `start3rdStage`: `errGrp.Wait()` returns once
every task has returned (and cancels the context), then `close(md5Ch)`. -/
def start3rdStage (s : State) : Action → Option State
  | .waitReturns =>
    match s.closer with
    | .waiting => if s.allReturnedB then some { s with closer := .closing, cancelled := true } else none
    | _ => none
  | .closeMd5Ch =>
    match s.closer with
    | .closing =>
      some { s with closer := .done, md5ChCloses := s.md5ChCloses + 1,
                    panicked := s.panicked || decide (0 < s.md5ChCloses) }
    | _ => none
  | _ => none

/-- One step of the pipeline; `none` when the action is not enabled. -/
def step (env : Env) (cmdArgs : args) (s : State) (a : Action) : Option State :=
  if s.panicked then none
  else
    match a with
    | .visit => start1stStage env cmdArgs s a
    | .poll => start1stStage env cmdArgs s a
    | .handoff i => start2ndStage env s i a
    | .drained i => start2ndStage env s i a
    | .read i => start2ndStage env s i a
    | .deliver i => start2ndStage env s i a
    | .abandon i => start2ndStage env s i a
    | .waitReturns => start3rdStage s a
    | .closeMd5Ch => start3rdStage s a
    | .sinkExit =>
      if s.sinkDone then none
      else if 0 < s.md5ChCloses then some { s with sinkDone := true } else none

/-- Run a schedule: the actions one after the other. -/
def exec (env : Env) (cmdArgs : args) : State → List Action → Option State
  | s, [] => some s
  | s, a :: as =>
    match step env cmdArgs s a with
    | some t => exec env cmdArgs t as
    | none => none

/-- The states the pipeline can be in. -/
inductive Reachable (env : Env) (cmdArgs : args) : State → Prop
  | init : Reachable env cmdArgs (State.init env cmdArgs)
  | step {s t : State} (a : Action) : Reachable env cmdArgs s → step env cmdArgs s a = some t →
      Reachable env cmdArgs t

/-! ## `execFinalStage`: the sheet -/

/-- A `SetValue` on the cell `ws.Cells(row, col)`. -/
structure CellWrite where
  row : Nat
  col : Nat
  value : String
deriving DecidableEq

/-- The loop of `execFinalStage` from row `row` on: two cells per record. -/
def writeRows : Nat → List md5result → List CellWrite
  | _, [] => []
  | row, r :: rs =>
    ⟨row, 1, r.path⟩ :: ⟨row, 2, sprintfHex r.checkSum⟩ :: writeRows (row + 1) rs

/-- The cell writes of `execFinalStage` on the records it receives: `row := 1`, then the loop. -/
def execFinalStage (records : List md5result) : List CellWrite := writeRows 1 records

/-- The value of a cell after the writes: the last write to it, `none` when
the cell was never written. -/
def cellValue : List CellWrite → Nat → Nat → Option String
  | [], _, _ => none
  | w :: ws, row, col =>
    match cellValue ws row col with
    | some v => some v
    | none => if w.row = row ∧ w.col = col then some w.value else none

/-! ## `run` -/

/-- What `run` leaves behind: its return value, the pipeline's last state when
the stages were started, and the cells written. -/
structure RunResult where
  exitCode : Nat
  pipeline : Option State
  sheet : List CellWrite

/-- The function `run`, on a command line `flag.Parse()` has accepted, under a
schedule of the goroutines.  `none`: the schedule is not one of a run that
returns. -/
def run (env : Env) (flags : Flags) (sched : List Action) : Option RunResult :=
  let cmdArgs := parseFlags flags
  if cmdArgs.output = "" then some ⟨2, none, []⟩
  else
    let cmdArgs := fillDefaults cmdArgs
    match exec env cmdArgs (State.init env cmdArgs) sched with
    | none => none
    | some s =>
      if s.sinkDone then
        some ⟨if s.err.isSome then 1 else 0, some s, execFinalStage s.received⟩
      else none

/-- What `flag.Parse()` makes of a command line: it accepts it and sets the
flags given, or it rejects it (a flag that is not defined, a flag without its
value, `-h`) and ends the process itself. -/
inductive CommandLine
  | accepted (flags : Flags)
  | rejected

/-- The function `run` on a command line.  `none`: `run` does not return,
because `flag.Parse()` ended the process or because the schedule is not one of
a run that returns. -/
def runCommandLine (env : Env) (cl : CommandLine) (sched : List Action) : Option RunResult :=
  match cl with
  | .rejected => none
  | .accepted flags => run env flags sched

/-! ## Concrete file systems -/

/-- The example tree: `x.log`, `y.log` and `z.txt` directly under the root. -/
def logsListing : Listing := .file "x.log" (.file "y.log" (.file "z.txt" .nil))

/-- Contents of the example tree: `hello`, `world` and `skip`. -/
def logsReadFile (p : String) : Except Nat (List Byte) :=
  if p = "x.log" then .ok (bytesOf "hello")
  else if p = "y.log" then .ok (bytesOf "world")
  else if p = "z.txt" then .ok (bytesOf "skip")
  else .error 2

/-- The example tree with Go's `regexp.Match`. -/
def logsEnv : Env :=
  { walk := fun root => filepathWalk root logsListing
    readFile := logsReadFile
    regexpMatch := goRegexpMatch }

/-- All ten workers see the closed path stream and return. -/
def drainAll : List Action :=
  [.drained 0, .drained 1, .drained 2, .drained 3, .drained 4,
   .drained 5, .drained 6, .drained 7, .drained 8, .drained 9]

/-- The shutdown after the last task has returned. -/
def shutdown : List Action := [.waitReturns, .closeMd5Ch, .sinkExit]

/-- A schedule of `logsEnv` under a pattern matching the two `.log` files:
worker 0 takes `x.log`, worker 1 takes `y.log`, and `y.log` is delivered first. -/
def logsSchedule : List Action :=
  [.visit, .visit, .handoff 0, .poll, .visit, .handoff 1, .poll, .visit, .poll, .visit,
   .read 1, .read 0, .deliver 1, .deliver 0] ++ drainAll ++ shutdown

/-! ## The step relation, case by case -/

/-- The transitions of `step`, one constructor per case. -/
inductive Step (env : Env) (cmdArgs : args) (s : State) : State → Prop
  | visitEnd : s.panicked = false → s.disc = .walking [] →
      Step env cmdArgs s (s.discReturn none)
  | visitFail (v : Visit) (rest : List Visit) (e : GoError) : s.panicked = false →
      s.disc = .walking (v :: rest) → walkFn env cmdArgs v = .fail e →
      Step env cmdArgs s (s.discReturn (some e))
  | visitNext (v : Visit) (rest : List Visit) : s.panicked = false →
      s.disc = .walking (v :: rest) → walkFn env cmdArgs v = .next →
      Step env cmdArgs s { s with disc := .walking rest }
  | visitPush (v : Visit) (rest : List Visit) (p : String) : s.panicked = false →
      s.disc = .walking (v :: rest) → walkFn env cmdArgs v = .push p →
      Step env cmdArgs s { s with disc := .sending p rest }
  | visitNoPush (v : Visit) (rest : List Visit) : s.panicked = false →
      s.disc = .walking (v :: rest) → walkFn env cmdArgs v = .noPush →
      Step env cmdArgs s { s with disc := .polling rest }
  | pollCancelled (rest : List Visit) : s.panicked = false →
      s.disc = .polling rest → s.cancelled = true →
      Step env cmdArgs s (s.discReturn (some .canceled))
  | pollOn (rest : List Visit) : s.panicked = false →
      s.disc = .polling rest → s.cancelled = false →
      Step env cmdArgs s { s with disc := .walking rest }
  | handoff (i : WorkerId) (p : String) (rest : List Visit) : s.panicked = false →
      s.disc = .sending p rest → s.workers i = .receiving →
      Step env cmdArgs s
        { s with disc := .polling rest, workers := Function.update s.workers i (.reading p) }
  | drained (i : WorkerId) : s.panicked = false →
      s.workers i = .receiving → s.filePathChClosed = true →
      Step env cmdArgs s (s.workerReturn i none)
  | readFail (i : WorkerId) (p : String) (e : Nat) : s.panicked = false →
      s.workers i = .reading p → env.readFile p = .error e →
      Step env cmdArgs s (s.workerReturn i (some (.read e)))
  | readOk (i : WorkerId) (p : String) (data : List Byte) : s.panicked = false →
      s.workers i = .reading p → env.readFile p = .ok data →
      Step env cmdArgs s
        { s with workers := Function.update s.workers i
                  (.offering ⟨p, md5Sum data, workerName i⟩) }
  | deliverClosed (i : WorkerId) (r : md5result) : s.panicked = false →
      s.workers i = .offering r → 0 < s.md5ChCloses →
      Step env cmdArgs s { s with panicked := true }
  | deliver (i : WorkerId) (r : md5result) : s.panicked = false →
      s.workers i = .offering r → s.md5ChCloses = 0 → s.sinkDone = false →
      Step env cmdArgs s
        { s with workers := Function.update s.workers i .receiving,
                 received := s.received ++ [r] }
  | abandon (i : WorkerId) (r : md5result) : s.panicked = false →
      s.workers i = .offering r → s.cancelled = true →
      Step env cmdArgs s (s.workerReturn i (some .canceled))
  | waitReturns : s.panicked = false → s.closer = .waiting → s.allReturnedB = true →
      Step env cmdArgs s { s with closer := .closing, cancelled := true }
  | closeMd5Ch : s.panicked = false → s.closer = .closing →
      Step env cmdArgs s
        { s with closer := .done, md5ChCloses := s.md5ChCloses + 1,
                 panicked := s.panicked || decide (0 < s.md5ChCloses) }
  | sinkExit : s.panicked = false → s.sinkDone = false → 0 < s.md5ChCloses →
      Step env cmdArgs s { s with sinkDone := true }

/-! ## Shutdown invariant -/

/-- What holds of the result stream and its closer in every reachable state. -/
structure ShutdownInv (s : State) : Prop where
  waited : s.closer ≠ .waiting → s.allReturned
  closes : s.md5ChCloses = if s.closer = .done then 1 else 0
  noPanic : s.panicked = false
  sink : s.sinkDone = true → s.closer = .done

/-! ## Errors -/

/-- Stage 1 has returned a non-nil error. -/
def Disc.failed : Disc → Bool
  | .returned (some _) => true
  | _ => false

/-- Stage 1 has returned the walk's error. -/
def Disc.walkFailed : Disc → Bool
  | .returned (some (.walk _)) => true
  | _ => false

/-- The worker has returned a non-nil error. -/
def Worker.failed : Worker → Bool
  | .returned (some _) => true
  | _ => false

/-- The worker has returned the error of a read. -/
def Worker.readFailed : Worker → Bool
  | .returned (some (.read _)) => true
  | _ => false

/-- Some task of the group has returned a non-nil error. -/
def State.TaskFailed (s : State) : Prop :=
  s.disc.failed = true ∨ ∃ i, (s.workers i).failed = true

/-- A walk error or a read error has occurred. -/
def State.WalkOrReadFailed (s : State) : Prop :=
  s.disc.walkFailed = true ∨ ∃ i, (s.workers i).readFailed = true

instance (s : State) : Decidable s.TaskFailed := by
  unfold State.TaskFailed; infer_instance

instance (s : State) : Decidable s.WalkOrReadFailed := by
  unfold State.WalkOrReadFailed; infer_instance

/-- How the group's error, the cancellation and the tasks' results hang together. -/
structure ErrorInv (s : State) : Prop where
  errIff : s.err.isSome = true ↔ s.TaskFailed
  cancelWhy : s.cancelled = true → s.WalkOrReadFailed ∨ s.closer ≠ .waiting
  failWhy : s.TaskFailed → s.WalkOrReadFailed

/-! ## Conservation of paths -/

/-- The paths of the visits the walk function pushes: entries that are not
directories and whose name `regexp.Match` accepts. -/
def matchingPaths (env : Env) (cmdArgs : args) (vs : List Visit) : List String :=
  (vs.filter (fun v => !v.isDir && (env.regexpMatch cmdArgs.pattern v.name).1)).map Visit.path

/-- Paths stage 1 still has to push. -/
def Disc.pending (env : Env) (cmdArgs : args) : Disc → Multiset String
  | .walking rest => (matchingPaths env cmdArgs rest : Multiset String)
  | .sending p rest => {p} + (matchingPaths env cmdArgs rest : Multiset String)
  | .polling rest => (matchingPaths env cmdArgs rest : Multiset String)
  | .returned _ => 0

/-- The path a worker holds. -/
def Worker.held : Worker → Multiset String
  | .reading p => {p}
  | .offering r => {r.path}
  | _ => 0

/-- Every path that is delivered, held by a worker or still to be pushed. -/
def State.paths (env : Env) (cmdArgs : args) (s : State) : Multiset String :=
  (s.received.map md5result.path : Multiset String) + (∑ i, (s.workers i).held)
    + s.disc.pending env cmdArgs

/-! ## Records -/

/-- Every record a worker offers, and every record received, was computed by
a worker from a successful read of its path. -/
structure RecordInv (env : Env) (s : State) : Prop where
  offered : ∀ i r, s.workers i = .offering r →
    ∃ d, env.readFile r.path = .ok d ∧ r = ⟨r.path, md5Sum d, workerName i⟩
  received : ∀ r ∈ s.received,
    ∃ d i, env.readFile r.path = .ok d ∧ r = ⟨r.path, md5Sum d, workerName i⟩

/-! ## Concrete runs -/

/-- Flags selecting the `.log` files of the example tree by a regular expression. -/
def logsFlags : Flags := { d := none, p := some "\\.log$", o := some "out.xlsx" }

/-- The arguments `run` works with under `logsFlags`. -/
def logsArgs : args := fillDefaults (parseFlags logsFlags)

/-- The state `logsSchedule` leads to. -/
def logsFinal : State :=
  (exec logsEnv logsArgs (State.init logsEnv logsArgs) logsSchedule).getD
    (State.init logsEnv logsArgs)

/-- What `run` leaves behind under `logsSchedule`. -/
def logsResult : RunResult :=
  { exitCode := if logsFinal.err.isSome then 1 else 0
    pipeline := some logsFinal
    sheet := execFinalStage logsFinal.received }

/-- Eleven files matching the pattern `log`. -/
def lockedListing : Listing :=
  .file "01.log" (.file "02.log" (.file "03.log" (.file "04.log" (.file "05.log"
    (.file "06.log" (.file "07.log" (.file "08.log" (.file "09.log" (.file "10.log"
      (.file "11.log" .nil))))))))))

/-- A tree of eleven files none of which can be read (permission denied). -/
def lockedEnv : Env :=
  { walk := fun root => filepathWalk root lockedListing
    readFile := fun _ => .error 13
    regexpMatch := goRegexpMatch }

/-- Flags for `lockedEnv`: every file name contains `log`. -/
def lockedFlags : Flags := { d := none, p := some "log", o := some "out.xlsx" }

/-- The arguments `run` works with under `lockedFlags`. -/
def lockedArgs : args := fillDefaults (parseFlags lockedFlags)

/-- Stage 1 hands the first file to worker 0. -/
def firstHandoff : List Action := [.visit, .visit, .handoff 0]

/-- After worker 0 has failed: stage 1 sees the cancellation, the other workers
see the closed path stream, and the pipeline shuts down. -/
def unwind : List Action :=
  [.poll, .drained 1, .drained 2, .drained 3, .drained 4, .drained 5, .drained 6,
   .drained 7, .drained 8, .drained 9] ++ shutdown

/-- The state of `lockedEnv` after `firstHandoff`. -/
def lockedHandedOff : State :=
  (exec lockedEnv lockedArgs (State.init lockedEnv lockedArgs) firstHandoff).getD
    (State.init lockedEnv lockedArgs)

/-- The state of `lockedEnv` at the end of the failed run. -/
def lockedFinal : State :=
  (exec lockedEnv lockedArgs (State.init lockedEnv lockedArgs)
    (firstHandoff ++ Action.read 0 :: unwind)).getD (State.init lockedEnv lockedArgs)

/-- What `run` leaves behind in `lockedEnv`. -/
def lockedResult : RunResult :=
  { exitCode := if lockedFinal.err.isSome then 1 else 0
    pipeline := some lockedFinal
    sheet := execFinalStage lockedFinal.received }

/-- The state of the example tree after `firstHandoff`: worker 0 holds `x.log`. -/
def logsHandedOff : State :=
  (exec logsEnv logsArgs (State.init logsEnv logsArgs) firstHandoff).getD
    (State.init logsEnv logsArgs)

/-- Stage 1 hands the first ten files to the ten workers, passing its
cancellation check after each, and blocks on the send of the eleventh; then
every worker's read fails. -/
def stuckSchedule : List Action :=
  [.visit,
   .visit, .handoff 0, .poll, .visit, .handoff 1, .poll, .visit, .handoff 2, .poll,
   .visit, .handoff 3, .poll, .visit, .handoff 4, .poll, .visit, .handoff 5, .poll,
   .visit, .handoff 6, .poll, .visit, .handoff 7, .poll, .visit, .handoff 8, .poll,
   .visit, .handoff 9, .poll,
   .visit,
   .read 0, .read 1, .read 2, .read 3, .read 4, .read 5, .read 6, .read 7, .read 8, .read 9]

/-- The state `stuckSchedule` leads to. -/
def stuckState : State :=
  (exec lockedEnv lockedArgs (State.init lockedEnv lockedArgs) stuckSchedule).getD
    (State.init lockedEnv lockedArgs)

/-- The flags of the specification's example: the glob `*.log`. -/
def globFlags : Flags := { d := none, p := some "*.log", o := some "out.xlsx" }

/-- Flags that leave the pattern out. -/
def defaultFlags : Flags := { d := none, p := none, o := some "out.xlsx" }

/-- A schedule for a walk of the example tree that pushes nothing. -/
def quietSchedule : List Action :=
  [.visit, .visit, .poll, .visit, .poll, .visit, .poll, .visit] ++ drainAll ++ shutdown

/-- A tree with the file `a.txt` inside the directory `bdir`. -/
def bdirListing : Listing := .dir "bdir" (.file "a.txt" .nil) .nil

theorem step_sound {env : Env} {cmdArgs : args} {s t : State} {a : Action}
    (h : step env cmdArgs s a = some t) : Step env cmdArgs s t := by
  unfold step at h
  split at h
  · simp at h
  · rename_i hp
    simp only [Bool.not_eq_true] at hp
    cases a <;> simp only [start1stStage, start2ndStage, start3rdStage] at h
    · -- visit
      split at h
      · cases h; exact .visitEnd hp ‹_›
      · split at h <;> cases h
        · exact .visitFail _ _ _ hp ‹_› ‹_›
        · exact .visitNext _ _ hp ‹_› ‹_›
        · exact .visitPush _ _ _ hp ‹_› ‹_›
        · exact .visitNoPush _ _ hp ‹_› ‹_›
      · simp at h
    · -- poll
      split at h
      · split at h <;> cases h
        · exact .pollCancelled _ hp ‹_› ‹_›
        · exact .pollOn _ hp ‹_› (by simpa using ‹¬ s.cancelled = true›)
      · simp at h
    · -- handoff
      split at h
      · cases h; exact .handoff _ _ _ hp ‹_› ‹_›
      · simp at h
    · -- drained
      split at h
      · split at h
        · cases h; exact .drained _ hp ‹_› ‹_›
        · simp at h
      · simp at h
    · -- read
      split at h
      · split at h <;> cases h
        · exact .readFail _ _ _ hp ‹_› ‹_›
        · exact .readOk _ _ _ hp ‹_› ‹_›
      · simp at h
    · -- deliver
      split at h
      · split at h
        · cases h; exact .deliverClosed _ _ hp ‹_› ‹_›
        · split at h
          · simp at h
          · cases h
            exact .deliver _ _ hp ‹_› (by omega) (by simpa using ‹¬ s.sinkDone = true›)
      · simp at h
    · -- abandon
      split at h
      · split at h
        · cases h; exact .abandon _ _ hp ‹_› ‹_›
        · simp at h
      · simp at h
    · -- waitReturns
      split at h
      · split at h
        · cases h; exact .waitReturns hp ‹_› ‹_›
        · simp at h
      · simp at h
    · -- closeMd5Ch
      split at h
      · cases h; exact .closeMd5Ch hp ‹_›
      · simp at h
    · -- sinkExit
      split at h
      · simp at h
      · split at h
        · cases h; exact .sinkExit hp (by simpa using ‹¬ s.sinkDone = true›) ‹_›
        · simp at h

/-! ## Bookkeeping lemmas -/

@[simp] theorem taskReturn_disc (s : State) (e : Option GoError) :
    (s.taskReturn e).disc = s.disc := by
  unfold State.taskReturn; split <;> rfl

@[simp] theorem taskReturn_workers (s : State) (e : Option GoError) :
    (s.taskReturn e).workers = s.workers := by
  unfold State.taskReturn; split <;> rfl

@[simp] theorem taskReturn_closer (s : State) (e : Option GoError) :
    (s.taskReturn e).closer = s.closer := by
  unfold State.taskReturn; split <;> rfl

@[simp] theorem taskReturn_sinkDone (s : State) (e : Option GoError) :
    (s.taskReturn e).sinkDone = s.sinkDone := by
  unfold State.taskReturn; split <;> rfl

@[simp] theorem taskReturn_received (s : State) (e : Option GoError) :
    (s.taskReturn e).received = s.received := by
  unfold State.taskReturn; split <;> rfl

@[simp] theorem taskReturn_filePathChClosed (s : State) (e : Option GoError) :
    (s.taskReturn e).filePathChClosed = s.filePathChClosed := by
  unfold State.taskReturn; split <;> rfl

@[simp] theorem taskReturn_md5ChCloses (s : State) (e : Option GoError) :
    (s.taskReturn e).md5ChCloses = s.md5ChCloses := by
  unfold State.taskReturn; split <;> rfl

@[simp] theorem taskReturn_panicked (s : State) (e : Option GoError) :
    (s.taskReturn e).panicked = s.panicked := by
  unfold State.taskReturn; split <;> rfl

theorem taskReturn_err (s : State) (e : Option GoError) :
    (s.taskReturn e).err = if s.err.isSome then s.err else e := by
  unfold State.taskReturn
  cases e <;> cases h : s.err <;> simp [h]

theorem taskReturn_cancelled (s : State) (e : Option GoError) :
    (s.taskReturn e).cancelled = (s.cancelled || (s.err.isNone && e.isSome)) := by
  unfold State.taskReturn
  cases e <;> cases h : s.err <;> simp [h]

theorem allReturnedB_iff (s : State) : s.allReturnedB = true ↔ s.allReturned := by
  unfold State.allReturnedB State.allReturned
  simp only [Bool.and_eq_true, decide_eq_true_eq]
  constructor
  · rintro ⟨hd, hw⟩
    refine ⟨?_, fun i => ?_⟩
    · cases h : s.disc <;> simp [h, Disc.isReturned] at hd ⊢
    · have := hw i
      cases h : s.workers i <;> simp [h, Worker.isReturned] at this ⊢
  · rintro ⟨⟨e, hd⟩, hw⟩
    refine ⟨by simp [hd, Disc.isReturned], fun i => ?_⟩
    obtain ⟨e, he⟩ := hw i
    simp [he, Worker.isReturned]

theorem allReturned_disc {s : State} (h : s.allReturned) : s.disc.isReturned = true :=
  ((allReturnedB_iff s).2 h |> fun hb => by
    unfold State.allReturnedB at hb
    simp only [Bool.and_eq_true] at hb
    exact hb.1)

theorem allReturned_worker {s : State} (h : s.allReturned) (i : WorkerId) :
    (s.workers i).isReturned = true := by
  obtain ⟨e, he⟩ := h.2 i
  simp [he, Worker.isReturned]

theorem shutdownInv_init (env : Env) (cmdArgs : args) : ShutdownInv (State.init env cmdArgs) := by
  constructor <;> simp [State.init]

theorem shutdownInv_step {env : Env} {cmdArgs : args} {s t : State}
    (h : Step env cmdArgs s t) (inv : ShutdownInv s) : ShutdownInv t := by
  obtain ⟨hw, hc, hp, hs⟩ := inv
  have busyD : s.disc.isReturned = false → s.closer = .waiting := by
    intro hd
    by_contra hne
    have := allReturned_disc (hw hne)
    simp [hd] at this
  have busyW : ∀ i, (s.workers i).isReturned = false → s.closer = .waiting := by
    intro i hd
    by_contra hne
    have := allReturned_worker (hw hne) i
    simp [hd] at this
  have closedDone : 0 < s.md5ChCloses → s.closer = .done := by
    intro h0
    by_contra hne
    simp [hne] at hc
    omega
  cases h
  case visitEnd h1 h2 =>
    have := busyD (by simp [h2, Disc.isReturned])
    constructor <;> simp_all [State.discReturn]
  case visitFail h1 h2 h3 =>
    have := busyD (by simp [h2, Disc.isReturned])
    constructor <;> simp_all [State.discReturn]
  case visitNext h1 h2 h3 =>
    have := busyD (by simp [h2, Disc.isReturned])
    constructor <;> simp_all
  case visitPush h1 h2 h3 =>
    have := busyD (by simp [h2, Disc.isReturned])
    constructor <;> simp_all
  case visitNoPush h1 h2 h3 =>
    have := busyD (by simp [h2, Disc.isReturned])
    constructor <;> simp_all
  case pollCancelled h1 h2 h3 =>
    have := busyD (by simp [h2, Disc.isReturned])
    constructor <;> simp_all [State.discReturn]
  case pollOn h1 h2 h3 =>
    have := busyD (by simp [h2, Disc.isReturned])
    constructor <;> simp_all
  case handoff i p rest h1 h2 h3 =>
    have := busyD (by simp [h2, Disc.isReturned])
    constructor <;> simp_all
  case drained i h1 h2 h3 =>
    have := busyW i (by simp [h2, Worker.isReturned])
    constructor <;> simp_all [State.workerReturn]
  case readFail i p e h1 h2 h3 =>
    have := busyW i (by simp [h2, Worker.isReturned])
    constructor <;> simp_all [State.workerReturn]
  case readOk i p d h1 h2 h3 =>
    have := busyW i (by simp [h2, Worker.isReturned])
    constructor <;> simp_all
  case deliverClosed i r h1 h2 h3 =>
    have := busyW i (by simp [h2, Worker.isReturned])
    have := closedDone h3
    simp_all
  case deliver i r h1 h2 h3 h4 =>
    have := busyW i (by simp [h2, Worker.isReturned])
    constructor <;> simp_all
  case abandon i r h1 h2 h3 =>
    have := busyW i (by simp [h2, Worker.isReturned])
    constructor <;> simp_all [State.workerReturn]
  case waitReturns h1 h2 h3 =>
    have h4 := (allReturnedB_iff s).1 h3
    constructor <;> simp_all [State.allReturned]
  case closeMd5Ch h1 h2 =>
    have h4 := hw (by simp [h2])
    constructor <;> simp_all [State.allReturned]
  case sinkExit h1 h2 h3 =>
    have := closedDone h3
    constructor <;> simp_all [State.allReturned]

theorem shutdownInv_of_reachable {env : Env} {cmdArgs : args} {s : State}
    (h : Reachable env cmdArgs s) : ShutdownInv s := by
  induction h with
  | init => exact shutdownInv_init env cmdArgs
  | step a _ hs ih => exact shutdownInv_step (step_sound hs) ih

@[simp] theorem disc_isReturned_walking (r : List Visit) : Disc.isReturned (.walking r) = false := rfl

@[simp] theorem disc_isReturned_sending (p : String) (r : List Visit) : Disc.isReturned (.sending p r) = false := rfl

@[simp] theorem disc_isReturned_polling (r : List Visit) : Disc.isReturned (.polling r) = false := rfl

@[simp] theorem disc_failed_walking (r : List Visit) : Disc.failed (.walking r) = false := rfl

@[simp] theorem disc_failed_sending (p : String) (r : List Visit) : Disc.failed (.sending p r) = false := rfl

@[simp] theorem disc_failed_polling (r : List Visit) : Disc.failed (.polling r) = false := rfl

@[simp] theorem disc_walkFailed_walking (r : List Visit) : Disc.walkFailed (.walking r) = false := rfl

@[simp] theorem disc_walkFailed_sending (p : String) (r : List Visit) : Disc.walkFailed (.sending p r) = false := rfl

@[simp] theorem disc_walkFailed_polling (r : List Visit) : Disc.walkFailed (.polling r) = false := rfl

@[simp] theorem disc_isReturned_returned (e : Option GoError) : Disc.isReturned (.returned e) = true := rfl

@[simp] theorem disc_failed_returned (e : Option GoError) : Disc.failed (.returned e) = e.isSome := by
  cases e <;> rfl

@[simp] theorem disc_walkFailed_none : Disc.walkFailed (.returned none) = false := rfl

@[simp] theorem disc_walkFailed_walk (c : Nat) : Disc.walkFailed (.returned (some (.walk c))) = true := rfl

@[simp] theorem disc_walkFailed_read (c : Nat) : Disc.walkFailed (.returned (some (.read c))) = false := rfl

@[simp] theorem disc_walkFailed_canceled : Disc.walkFailed (.returned (some .canceled)) = false := rfl

@[simp] theorem worker_isReturned_receiving  : Worker.isReturned (.receiving) = false := rfl

@[simp] theorem worker_isReturned_reading (p : String) : Worker.isReturned (.reading p) = false := rfl

@[simp] theorem worker_isReturned_offering (r : md5result) : Worker.isReturned (.offering r) = false := rfl

@[simp] theorem worker_failed_receiving  : Worker.failed (.receiving) = false := rfl

@[simp] theorem worker_failed_reading (p : String) : Worker.failed (.reading p) = false := rfl

@[simp] theorem worker_failed_offering (r : md5result) : Worker.failed (.offering r) = false := rfl

@[simp] theorem worker_readFailed_receiving  : Worker.readFailed (.receiving) = false := rfl

@[simp] theorem worker_readFailed_reading (p : String) : Worker.readFailed (.reading p) = false := rfl

@[simp] theorem worker_readFailed_offering (r : md5result) : Worker.readFailed (.offering r) = false := rfl

@[simp] theorem worker_isReturned_returned (e : Option GoError) : Worker.isReturned (.returned e) = true := rfl

@[simp] theorem worker_failed_returned (e : Option GoError) : Worker.failed (.returned e) = e.isSome := by
  cases e <;> rfl

@[simp] theorem worker_readFailed_none : Worker.readFailed (.returned none) = false := rfl

@[simp] theorem worker_readFailed_read (c : Nat) : Worker.readFailed (.returned (some (.read c))) = true := rfl

@[simp] theorem worker_readFailed_walk (c : Nat) : Worker.readFailed (.returned (some (.walk c))) = false := rfl

@[simp] theorem worker_readFailed_canceled : Worker.readFailed (.returned (some .canceled)) = false := rfl

theorem exists_update_iff (w : WorkerId → Worker) (i : WorkerId) (x : Worker) (P : Worker → Bool)
    (hi : P (w i) = false) :
    (∃ j, P (Function.update w i x j) = true) ↔ (P x = true ∨ ∃ j, P (w j) = true) := by
  constructor
  · rintro ⟨j, hj⟩
    by_cases h : j = i
    · subst h; left; simpa using hj
    · right; exact ⟨j, by simpa [Function.update_noteq h] using hj⟩
  · rintro (hx | ⟨j, hj⟩)
    · exact ⟨i, by simpa using hx⟩
    · have h : j ≠ i := by
        rintro rfl
        simp [hi] at hj
      exact ⟨j, by simpa [Function.update_noteq h] using hj⟩

theorem errorInv_init (env : Env) (cmdArgs : args) : ErrorInv (State.init env cmdArgs) := by
  constructor <;>
    simp [State.init, State.TaskFailed, State.WalkOrReadFailed, Disc.failed, Worker.failed]

theorem walkFn_fail {env : Env} {cmdArgs : args} {v : Visit} {e : GoError}
    (h : walkFn env cmdArgs v = .fail e) : ∃ c, e = .walk c := by
  unfold walkFn at h
  split at h
  · cases h; exact ⟨_, rfl⟩
  · split at h
    · cases h
    · split at h <;> cases h

theorem taskReturn_err_isSome (s : State) (e : Option GoError) :
    (s.taskReturn e).err.isSome = (s.err.isSome || e.isSome) := by
  unfold State.taskReturn
  cases e <;> cases h : s.err <;> simp [h]

theorem taskFailed_discReturn (s : State) (e : Option GoError) :
    (s.discReturn e).TaskFailed ↔ (e.isSome = true ∨ ∃ i, (s.workers i).failed = true) := by
  cases e <;> simp [State.discReturn, State.TaskFailed, Disc.failed]

theorem walkOrReadFailed_discReturn (s : State) (e : Option GoError) :
    (s.discReturn e).WalkOrReadFailed ↔
      ((∃ c, e = some (.walk c)) ∨ ∃ i, (s.workers i).readFailed = true) := by
  rcases e with _ | (c | c | _) <;> simp [State.discReturn, State.WalkOrReadFailed, Disc.walkFailed]

theorem taskFailed_workerReturn (s : State) (i : WorkerId) (e : Option GoError)
    (h : (s.workers i).isReturned = false) :
    (s.workerReturn i e).TaskFailed ↔ (e.isSome = true ∨ s.TaskFailed) := by
  have hi : (s.workers i).failed = false := by
    cases hw : s.workers i <;> simp [hw, Worker.failed, Worker.isReturned] at h ⊢
  simp only [State.workerReturn, State.TaskFailed, taskReturn_disc, taskReturn_workers,
    exists_update_iff _ _ _ _ hi]
  cases e <;> simp [Worker.failed]

theorem walkOrReadFailed_workerReturn (s : State) (i : WorkerId) (e : Option GoError)
    (h : (s.workers i).isReturned = false) :
    (s.workerReturn i e).WalkOrReadFailed ↔ ((∃ c, e = some (.read c)) ∨ s.WalkOrReadFailed) := by
  have hi : (s.workers i).readFailed = false := by
    cases hw : s.workers i <;> simp [hw, Worker.readFailed, Worker.isReturned] at h ⊢
  simp only [State.workerReturn, State.WalkOrReadFailed, taskReturn_disc, taskReturn_workers,
    exists_update_iff _ _ _ _ hi]
  rcases e with _ | (c | c | _) <;> simp [Worker.readFailed]

theorem errorInv_congr {s t : State} (inv : ErrorInv s)
    (h1 : t.TaskFailed ↔ s.TaskFailed) (h2 : t.WalkOrReadFailed ↔ s.WalkOrReadFailed)
    (h3 : t.err = s.err)
    (h4 : t.cancelled = true → s.cancelled = true ∨ t.closer ≠ .waiting)
    (h5 : s.closer ≠ .waiting → t.closer ≠ .waiting) : ErrorInv t := by
  obtain ⟨he, hcw, hf⟩ := inv
  refine ⟨by rw [h3, h1]; exact he, fun hc => ?_, fun htf => h2.2 (hf (h1.1 htf))⟩
  rcases h4 hc with h | h
  · rcases hcw h with h' | h'
    · exact Or.inl (h2.2 h')
    · exact Or.inr (h5 h')
  · exact Or.inr h

theorem errorInv_return {s t : State} {e : Option GoError} (inv : ErrorInv s)
    (hTF : t.TaskFailed ↔ (e.isSome = true ∨ s.TaskFailed))
    (hWRF : (∀ x, e = some x → x ≠ .canceled → t.WalkOrReadFailed) ∧
      (s.WalkOrReadFailed → t.WalkOrReadFailed))
    (herr : t.err.isSome = (s.err.isSome || e.isSome))
    (hcan : t.cancelled = (s.cancelled || (s.err.isNone && e.isSome)))
    (hwait : s.closer = .waiting)
    (hcanc : e = some .canceled → s.cancelled = true) : ErrorInv t := by
  obtain ⟨he, hcw, hf⟩ := inv
  have key : ∀ x, e = some x → t.WalkOrReadFailed := by
    intro x hx
    by_cases hxc : x = .canceled
    · subst hxc
      rcases hcw (hcanc hx) with h | h
      · exact hWRF.2 h
      · exact absurd hwait h
    · exact hWRF.1 x hx hxc
  refine ⟨?_, fun hc => Or.inl ?_, fun htf => ?_⟩
  · rw [herr, hTF, Bool.or_eq_true, he]; tauto
  · rw [hcan, Bool.or_eq_true, Bool.and_eq_true] at hc
    rcases hc with h | ⟨_, h⟩
    · rcases hcw h with h' | h'
      · exact hWRF.2 h'
      · exact absurd hwait h'
    · obtain ⟨x, hx⟩ := Option.isSome_iff_exists.1 h
      exact key x hx
  · rcases hTF.1 htf with h | h
    · obtain ⟨x, hx⟩ := Option.isSome_iff_exists.1 h
      exact key x hx
    · exact hWRF.2 (hf h)

theorem errorInv_step {env : Env} {cmdArgs : args} {s t : State}
    (h : Step env cmdArgs s t) (sh : ShutdownInv s) (inv : ErrorInv s) : ErrorInv t := by
  have hw := sh.waited
  have busyD : s.disc.isReturned = false → s.closer = .waiting := by
    intro hd
    by_contra hne
    have := allReturned_disc (hw hne)
    simp [hd] at this
  have busyW : ∀ i, (s.workers i).isReturned = false → s.closer = .waiting := by
    intro i hd
    by_contra hne
    have := allReturned_worker (hw hne) i
    simp [hd] at this
  cases h
  case visitEnd h1 h2 =>
    have hb := busyD (by simp [h2])
    refine errorInv_return (e := none) inv ?_ ⟨by simp, ?_⟩ ?_ ?_ hb (by simp)
    · rw [taskFailed_discReturn]; simp [State.TaskFailed, h2]
    · rw [walkOrReadFailed_discReturn]; simp [State.WalkOrReadFailed, h2]
    · simp [State.discReturn, taskReturn_err_isSome]
    · simp [State.discReturn, taskReturn_cancelled]
  case visitFail v rest e h1 h2 h3 =>
    have hb := busyD (by simp [h2])
    obtain ⟨c, rfl⟩ := walkFn_fail h3
    refine errorInv_return (e := some (.walk c)) inv ?_ ⟨?_, ?_⟩ ?_ ?_ hb (by simp)
    · rw [taskFailed_discReturn]; simp [State.TaskFailed, h2]
    · intro x _ _; rw [walkOrReadFailed_discReturn]; simp
    · rw [walkOrReadFailed_discReturn]; simp [State.WalkOrReadFailed, h2]
    · simp [State.discReturn, taskReturn_err_isSome]
    · simp [State.discReturn, taskReturn_cancelled]
  case visitNext v rest h1 h2 h3 =>
    refine errorInv_congr inv ?_ ?_ rfl (fun h => Or.inl h) (fun h => h)
    · simp [State.TaskFailed, h2]
    · simp [State.WalkOrReadFailed, h2]
  case visitPush v rest p h1 h2 h3 =>
    refine errorInv_congr inv ?_ ?_ rfl (fun h => Or.inl h) (fun h => h)
    · simp [State.TaskFailed, h2]
    · simp [State.WalkOrReadFailed, h2]
  case visitNoPush v rest h1 h2 h3 =>
    refine errorInv_congr inv ?_ ?_ rfl (fun h => Or.inl h) (fun h => h)
    · simp [State.TaskFailed, h2]
    · simp [State.WalkOrReadFailed, h2]
  case pollCancelled rest h1 h2 h3 =>
    have hb := busyD (by simp [h2])
    refine errorInv_return (e := some .canceled) inv ?_ ⟨?_, ?_⟩ ?_ ?_ hb (fun _ => h3)
    · rw [taskFailed_discReturn]; simp [State.TaskFailed, h2]
    · intro x hx hne; simp at hx; exact absurd hx.symm hne
    · rw [walkOrReadFailed_discReturn]; simp [State.WalkOrReadFailed, h2]
    · simp [State.discReturn, taskReturn_err_isSome]
    · simp [State.discReturn, taskReturn_cancelled]
  case pollOn rest h1 h2 h3 =>
    refine errorInv_congr inv ?_ ?_ rfl (fun h => Or.inl h) (fun h => h)
    · simp [State.TaskFailed, h2]
    · simp [State.WalkOrReadFailed, h2]
  case handoff i p rest h1 h2 h3 =>
    refine errorInv_congr inv ?_ ?_ rfl (fun h => Or.inl h) (fun h => h)
    · simp [State.TaskFailed, h2,
        exists_update_iff s.workers i _ Worker.failed (by simp [h3])]
    · simp [State.WalkOrReadFailed, h2,
        exists_update_iff s.workers i _ Worker.readFailed (by simp [h3])]
  case drained i h1 h2 h3 =>
    have hr : (s.workers i).isReturned = false := by simp [h2]
    refine errorInv_return (e := none) inv (taskFailed_workerReturn s i _ hr) ⟨by simp, ?_⟩ ?_ ?_
      (busyW i hr) (by simp)
    · exact fun h => (walkOrReadFailed_workerReturn s i _ hr).2 (Or.inr h)
    · simp [State.workerReturn, taskReturn_err_isSome]
    · simp [State.workerReturn, taskReturn_cancelled]
  case readFail i p e h1 h2 h3 =>
    have hr : (s.workers i).isReturned = false := by simp [h2]
    refine errorInv_return (e := some (.read e)) inv (taskFailed_workerReturn s i _ hr) ⟨?_, ?_⟩
      ?_ ?_ (busyW i hr) (by simp)
    · exact fun _ _ _ => (walkOrReadFailed_workerReturn s i _ hr).2 (Or.inl ⟨e, rfl⟩)
    · exact fun h => (walkOrReadFailed_workerReturn s i _ hr).2 (Or.inr h)
    · simp [State.workerReturn, taskReturn_err_isSome]
    · simp [State.workerReturn, taskReturn_cancelled]
  case readOk i p d h1 h2 h3 =>
    refine errorInv_congr inv ?_ ?_ rfl (fun h => Or.inl h) (fun h => h)
    · simp [State.TaskFailed,
        exists_update_iff s.workers i _ Worker.failed (by simp [h2])]
    · simp [State.WalkOrReadFailed,
        exists_update_iff s.workers i _ Worker.readFailed (by simp [h2])]
  case deliverClosed i r h1 h2 h3 =>
    exact errorInv_congr inv Iff.rfl Iff.rfl rfl (fun h => Or.inl h) (fun h => h)
  case deliver i r h1 h2 h3 h4 =>
    refine errorInv_congr inv ?_ ?_ rfl (fun h => Or.inl h) (fun h => h)
    · simp [State.TaskFailed,
        exists_update_iff s.workers i _ Worker.failed (by simp [h2])]
    · simp [State.WalkOrReadFailed,
        exists_update_iff s.workers i _ Worker.readFailed (by simp [h2])]
  case abandon i r h1 h2 h3 =>
    have hr : (s.workers i).isReturned = false := by simp [h2]
    refine errorInv_return (e := some .canceled) inv (taskFailed_workerReturn s i _ hr) ⟨?_, ?_⟩
      ?_ ?_ (busyW i hr) (fun _ => h3)
    · intro x hx hne; simp at hx; exact absurd hx.symm hne
    · exact fun h => (walkOrReadFailed_workerReturn s i _ hr).2 (Or.inr h)
    · simp [State.workerReturn, taskReturn_err_isSome]
    · simp [State.workerReturn, taskReturn_cancelled]
  case waitReturns h1 h2 h3 =>
    exact errorInv_congr inv Iff.rfl Iff.rfl rfl (fun _ => Or.inr (by simp)) (fun _ => by simp)
  case closeMd5Ch h1 h2 =>
    exact errorInv_congr inv Iff.rfl Iff.rfl rfl (fun h => Or.inl h) (fun _ => by simp)
  case sinkExit h1 h2 h3 =>
    exact errorInv_congr inv Iff.rfl Iff.rfl rfl (fun h => Or.inl h) (fun h => h)

theorem errorInv_of_reachable {env : Env} {cmdArgs : args} {s : State}
    (h : Reachable env cmdArgs s) : ErrorInv s := by
  induction h with
  | init => exact errorInv_init env cmdArgs
  | step a hr hs ih => exact errorInv_step (step_sound hs) (shutdownInv_of_reachable hr) ih

@[simp] theorem worker_held_receiving : Worker.held .receiving = 0 := rfl

@[simp] theorem worker_held_reading (p : String) : Worker.held (.reading p) = {p} := rfl

@[simp] theorem worker_held_offering (r : md5result) : Worker.held (.offering r) = {r.path} := rfl

@[simp] theorem worker_held_returned (e : Option GoError) : Worker.held (.returned e) = 0 := rfl

theorem sum_update_held (w : WorkerId → Worker) (i : WorkerId) (x : Worker) :
    (∑ j, (Function.update w i x j).held) + (w i).held = (∑ j, (w j).held) + x.held := by
  have h1 : (fun j => (Function.update w i x j).held)
      = Function.update (fun j => (w j).held) i x.held := by
    funext j
    by_cases h : j = i
    · subst h; simp
    · simp [Function.update_noteq h]
  rw [h1, Finset.sum_update_of_mem (Finset.mem_univ i),
    ← Finset.add_sum_erase Finset.univ (fun j => (w j).held) (Finset.mem_univ i),
    Finset.sdiff_singleton_eq_erase]
  abel

theorem walkFn_next {env : Env} {cmdArgs : args} {v : Visit}
    (h : walkFn env cmdArgs v = .next) : v.err = none ∧ v.isDir = true := by
  unfold walkFn at h
  split at h
  · cases h
  · split at h
    · exact ⟨‹_›, ‹_›⟩
    · split at h <;> cases h

theorem walkFn_push {env : Env} {cmdArgs : args} {v : Visit} {p : String}
    (h : walkFn env cmdArgs v = .push p) :
    v.err = none ∧ v.isDir = false ∧ (env.regexpMatch cmdArgs.pattern v.name).1 = true
      ∧ p = v.path := by
  unfold walkFn at h
  split at h
  · cases h
  · split at h
    · cases h
    · split at h
      · cases h; exact ⟨‹_›, by simpa using ‹¬ v.isDir = true›, ‹_›, rfl⟩
      · cases h

theorem walkFn_noPush {env : Env} {cmdArgs : args} {v : Visit}
    (h : walkFn env cmdArgs v = .noPush) :
    v.err = none ∧ v.isDir = false ∧ (env.regexpMatch cmdArgs.pattern v.name).1 = false := by
  unfold walkFn at h
  split at h
  · cases h
  · split at h
    · cases h
    · split at h
      · cases h
      · exact ⟨‹_›, by simpa using ‹¬ v.isDir = true›,
          by simpa using ‹¬ (env.regexpMatch cmdArgs.pattern v.name).1 = true›⟩

theorem taskFailed_mono {env : Env} {cmdArgs : args} {s t : State}
    (h : Step env cmdArgs s t) (hs : s.TaskFailed) : t.TaskFailed := by
  cases h
  case visitEnd h1 h2 => simp [State.TaskFailed, h2] at hs; rw [taskFailed_discReturn]; exact Or.inr hs
  case visitFail v rest e h1 h2 h3 => rw [taskFailed_discReturn]; exact Or.inl rfl
  case visitNext v rest h1 h2 h3 => simpa [State.TaskFailed, h2] using hs
  case visitPush v rest p h1 h2 h3 => simpa [State.TaskFailed, h2] using hs
  case visitNoPush v rest h1 h2 h3 => simpa [State.TaskFailed, h2] using hs
  case pollCancelled rest h1 h2 h3 => rw [taskFailed_discReturn]; exact Or.inl rfl
  case pollOn rest h1 h2 h3 => simpa [State.TaskFailed, h2] using hs
  case handoff i p rest h1 h2 h3 =>
    simpa [State.TaskFailed, h2, exists_update_iff s.workers i _ Worker.failed (by simp [h3])]
      using hs
  case drained i h1 h2 h3 => exact (taskFailed_workerReturn s i _ (by simp [h2])).2 (Or.inr hs)
  case readFail i p e h1 h2 h3 => exact (taskFailed_workerReturn s i _ (by simp [h2])).2 (Or.inr hs)
  case readOk i p d h1 h2 h3 =>
    simpa [State.TaskFailed, exists_update_iff s.workers i _ Worker.failed (by simp [h2])] using hs
  case deliverClosed i r h1 h2 h3 => exact hs
  case deliver i r h1 h2 h3 h4 =>
    simpa [State.TaskFailed, exists_update_iff s.workers i _ Worker.failed (by simp [h2])] using hs
  case abandon i r h1 h2 h3 => exact (taskFailed_workerReturn s i _ (by simp [h2])).2 (Or.inr hs)
  case waitReturns h1 h2 h3 => exact hs
  case closeMd5Ch h1 h2 => exact hs
  case sinkExit h1 h2 h3 => exact hs

theorem paths_step_cases {env : Env} {cmdArgs : args} {s t : State}
    (h : Step env cmdArgs s t) :
    t.paths env cmdArgs = s.paths env cmdArgs ∨
      (t.TaskFailed ∧ t.paths env cmdArgs ≤ s.paths env cmdArgs) := by
  cases h
  case visitEnd h1 h2 =>
    left
    simp [State.paths, State.discReturn, h2, Disc.pending, matchingPaths]
  case visitFail v rest e h1 h2 h3 =>
    refine Or.inr ⟨(taskFailed_discReturn s _).2 (Or.inl (by simp)), ?_⟩
    simp only [State.paths, State.discReturn, taskReturn_received, taskReturn_workers,
      taskReturn_disc, Disc.pending, add_zero]
    exact le_self_add
  case visitNext v rest h1 h2 h3 =>
    left
    obtain ⟨_, hd⟩ := walkFn_next h3
    simp [State.paths, h2, Disc.pending, matchingPaths, hd]
  case visitPush v rest p h1 h2 h3 =>
    left
    obtain ⟨_, hd, hm, rfl⟩ := walkFn_push h3
    simp only [State.paths, h2, Disc.pending, matchingPaths, hd, hm, List.filter_cons,
      Bool.not_false, Bool.and_self, if_true, List.map_cons]
    rw [← Multiset.cons_coe, Multiset.singleton_add]
  case visitNoPush v rest h1 h2 h3 =>
    left
    obtain ⟨_, hd, hm⟩ := walkFn_noPush h3
    simp [State.paths, h2, Disc.pending, matchingPaths, hd, hm]
  case pollCancelled rest h1 h2 h3 =>
    refine Or.inr ⟨(taskFailed_discReturn s _).2 (Or.inl (by simp)), ?_⟩
    simp only [State.paths, State.discReturn, taskReturn_received, taskReturn_workers,
      taskReturn_disc, Disc.pending, add_zero]
    exact le_self_add
  case pollOn rest h1 h2 h3 =>
    left
    simp [State.paths, h2, Disc.pending]
  case handoff i p rest h1 h2 h3 =>
    left
    have hu := sum_update_held s.workers i (.reading p)
    simp only [h3, worker_held_receiving, worker_held_reading, add_zero] at hu
    simp only [State.paths, h2, Disc.pending, hu]
    abel
  case drained i h1 h2 h3 =>
    left
    have hu := sum_update_held s.workers i (.returned none)
    simp only [h2, worker_held_receiving, worker_held_returned, add_zero] at hu
    simp [State.paths, State.workerReturn, hu]
  case readFail i p e h1 h2 h3 =>
    refine Or.inr ⟨(taskFailed_workerReturn s i _ (by simp [h2])).2 (Or.inl (by simp)), ?_⟩
    have hu := sum_update_held s.workers i (.returned (some (.read e)))
    simp only [h2, worker_held_reading, worker_held_returned, add_zero] at hu
    have hle : (∑ j, (Function.update s.workers i (.returned (some (.read e))) j).held)
        ≤ ∑ j, (s.workers j).held := le_iff_exists_add.2 ⟨_, hu.symm⟩
    simp only [State.paths, State.workerReturn, taskReturn_received, taskReturn_workers,
      taskReturn_disc]
    exact add_le_add (add_le_add le_rfl hle) le_rfl
  case readOk i p d h1 h2 h3 =>
    left
    have hu := sum_update_held s.workers i (.offering ⟨p, md5Sum d, workerName i⟩)
    simp only [h2, worker_held_reading, worker_held_offering, add_left_inj] at hu
    simp [State.paths, hu]
  case deliverClosed i r h1 h2 h3 => exact Or.inl rfl
  case deliver i r h1 h2 h3 h4 =>
    left
    have hu := sum_update_held s.workers i .receiving
    simp only [h2, worker_held_receiving, worker_held_offering, add_zero] at hu
    simp only [State.paths, List.map_append, List.map_cons, List.map_nil, ← Multiset.coe_add,
      ← hu, Multiset.coe_singleton]
    abel
  case abandon i r h1 h2 h3 =>
    refine Or.inr ⟨(taskFailed_workerReturn s i _ (by simp [h2])).2 (Or.inl (by simp)), ?_⟩
    have hu := sum_update_held s.workers i (.returned (some .canceled))
    simp only [h2, worker_held_offering, worker_held_returned, add_zero] at hu
    have hle : (∑ j, (Function.update s.workers i (.returned (some .canceled)) j).held)
        ≤ ∑ j, (s.workers j).held := le_iff_exists_add.2 ⟨_, hu.symm⟩
    simp only [State.paths, State.workerReturn, taskReturn_received, taskReturn_workers,
      taskReturn_disc]
    exact add_le_add (add_le_add le_rfl hle) le_rfl
  case waitReturns h1 h2 h3 => exact Or.inl rfl
  case closeMd5Ch h1 h2 => exact Or.inl rfl
  case sinkExit h1 h2 h3 => exact Or.inl rfl

theorem paths_step {env : Env} {cmdArgs : args} {s t : State}
    (h : Step env cmdArgs s t) (ht : ¬ t.TaskFailed) :
    t.paths env cmdArgs = s.paths env cmdArgs := by
  rcases paths_step_cases h with h' | ⟨h', _⟩
  · exact h'
  · exact absurd h' ht

theorem paths_le_of_reachable {env : Env} {cmdArgs : args} {s : State}
    (h : Reachable env cmdArgs s) :
    s.paths env cmdArgs ≤
      (matchingPaths env cmdArgs (env.walk cmdArgs.directory) : Multiset String) := by
  induction h with
  | init => simp [State.paths, State.init, Disc.pending]
  | step a hr hst ih =>
    rcases paths_step_cases (step_sound hst) with h' | ⟨_, h'⟩
    · rw [h']; exact ih
    · exact le_trans h' ih

theorem received_path_mem {env : Env} {cmdArgs : args} {s : State}
    (h : Reachable env cmdArgs s) {r : md5result} (hr : r ∈ s.received) :
    r.path ∈ matchingPaths env cmdArgs (env.walk cmdArgs.directory) := by
  have h1 : r.path ∈ s.paths env cmdArgs := by
    simp only [State.paths, Multiset.mem_add, Multiset.mem_coe, List.mem_map]
    exact Or.inl (Or.inl ⟨r, hr, rfl⟩)
  simpa using Multiset.mem_of_le (paths_le_of_reachable h) h1

theorem paths_of_reachable {env : Env} {cmdArgs : args} {s : State}
    (h : Reachable env cmdArgs s) (hs : ¬ s.TaskFailed) :
    s.paths env cmdArgs = (matchingPaths env cmdArgs (env.walk cmdArgs.directory) : Multiset String) := by
  induction h with
  | init => simp [State.paths, State.init, Disc.pending, Worker.held]
  | step a hr hst ih =>
    have hstep := step_sound hst
    rw [paths_step hstep hs]
    exact ih (fun hf => hs (taskFailed_mono hstep hf))

/-! ## Schedules and reachability -/

theorem reachable_exec {env : Env} {cmdArgs : args} {sched : List Action} {s t : State}
    (hs : Reachable env cmdArgs s) (h : exec env cmdArgs s sched = some t) :
    Reachable env cmdArgs t := by
  induction sched generalizing s with
  | nil => simp [exec] at h; subst h; exact hs
  | cons a as ih =>
    simp only [exec] at h
    split at h
    · exact ih (Reachable.step a hs ‹_›) h
    · cases h

theorem reachable_of_exec {env : Env} {cmdArgs : args} {sched : List Action} {s : State}
    (h : exec env cmdArgs (State.init env cmdArgs) sched = some s) : Reachable env cmdArgs s :=
  reachable_exec Reachable.init h

theorem exec_append (env : Env) (cmdArgs : args) (s : State) (xs ys : List Action) :
    exec env cmdArgs s (xs ++ ys) = (exec env cmdArgs s xs).bind (fun t => exec env cmdArgs t ys) := by
  induction xs generalizing s with
  | nil => simp [exec]
  | cons a as ih =>
    simp only [List.cons_append, exec]
    split
    · exact ih _
    · simp

theorem exec_getD {env : Env} {cmdArgs : args} {sched : List Action} {s d : State}
    (h : (exec env cmdArgs s sched).isSome = true) :
    exec env cmdArgs s sched = some ((exec env cmdArgs s sched).getD d) := by
  cases hx : exec env cmdArgs s sched with
  | none => simp [hx] at h
  | some t => simp

theorem taskFailed_exec {env : Env} {cmdArgs : args} {sched : List Action} {s t : State}
    (h : exec env cmdArgs s sched = some t) (hs : s.TaskFailed) : t.TaskFailed := by
  induction sched generalizing s with
  | nil => simp [exec] at h; subst h; exact hs
  | cons a as ih =>
    simp only [exec] at h
    split at h
    · exact ih h (taskFailed_mono (step_sound ‹_›) hs)
    · cases h

/-! ## Tasks that have returned stay returned -/

theorem worker_returned_step {env : Env} {cmdArgs : args} {s t : State}
    (h : Step env cmdArgs s t) {j : WorkerId} {e : Option GoError}
    (hj : s.workers j = .returned e) : t.workers j = .returned e := by
  have key : ∀ (i : WorkerId) (x : Worker), (s.workers i).isReturned = false →
      Function.update s.workers i x j = .returned e := by
    intro i x hi
    have hne : j ≠ i := by
      rintro rfl
      simp [hj] at hi
    simp [Function.update_noteq hne, hj]
  cases h
  case visitEnd h1 h2 => simpa [State.discReturn] using hj
  case visitFail v rest e h1 h2 h3 => simpa [State.discReturn] using hj
  case visitNext v rest h1 h2 h3 => exact hj
  case visitPush v rest p h1 h2 h3 => exact hj
  case visitNoPush v rest h1 h2 h3 => exact hj
  case pollCancelled rest h1 h2 h3 => simpa [State.discReturn] using hj
  case pollOn rest h1 h2 h3 => exact hj
  case handoff i p rest h1 h2 h3 => exact key i _ (by simp [h3])
  case drained i h1 h2 h3 => simpa [State.workerReturn] using key i _ (by simp [h2])
  case readFail i p e h1 h2 h3 => simpa [State.workerReturn] using key i _ (by simp [h2])
  case readOk i p d h1 h2 h3 => exact key i _ (by simp [h2])
  case deliverClosed i r h1 h2 h3 => exact hj
  case deliver i r h1 h2 h3 h4 => exact key i _ (by simp [h2])
  case abandon i r h1 h2 h3 => simpa [State.workerReturn] using key i _ (by simp [h2])
  case waitReturns h1 h2 h3 => exact hj
  case closeMd5Ch h1 h2 => exact hj
  case sinkExit h1 h2 h3 => exact hj

theorem worker_returned_exec {env : Env} {cmdArgs : args} {sched : List Action} {s t : State}
    (h : exec env cmdArgs s sched = some t) {j : WorkerId} {e : Option GoError}
    (hj : s.workers j = .returned e) : t.workers j = .returned e := by
  induction sched generalizing s with
  | nil => simp [exec] at h; subst h; exact hj
  | cons a as ih =>
    simp only [exec] at h
    split at h
    · exact ih h (worker_returned_step (step_sound ‹_›) hj)
    · cases h

theorem recordInv_step {env : Env} {cmdArgs : args} {s t : State}
    (h : Step env cmdArgs s t) (inv : RecordInv env s) : RecordInv env t := by
  obtain ⟨ho, hr⟩ := inv
  have key : ∀ (i : WorkerId) (x : Worker), (∀ r, x ≠ .offering r) →
      ∀ j r, Function.update s.workers i x j = .offering r →
        ∃ d, env.readFile r.path = .ok d ∧ r = ⟨r.path, md5Sum d, workerName j⟩ := by
    intro i x hx j r hjr
    by_cases hji : j = i
    · subst hji
      simp at hjr
      exact absurd hjr (hx r)
    · rw [Function.update_noteq hji] at hjr
      exact ho j r hjr
  cases h
  case visitEnd h1 h2 => exact ⟨by simpa [State.discReturn] using ho, by simpa [State.discReturn] using hr⟩
  case visitFail v rest e h1 h2 h3 =>
    exact ⟨by simpa [State.discReturn] using ho, by simpa [State.discReturn] using hr⟩
  case visitNext v rest h1 h2 h3 => exact ⟨ho, hr⟩
  case visitPush v rest p h1 h2 h3 => exact ⟨ho, hr⟩
  case visitNoPush v rest h1 h2 h3 => exact ⟨ho, hr⟩
  case pollCancelled rest h1 h2 h3 =>
    exact ⟨by simpa [State.discReturn] using ho, by simpa [State.discReturn] using hr⟩
  case pollOn rest h1 h2 h3 => exact ⟨ho, hr⟩
  case handoff i p rest h1 h2 h3 => exact ⟨key i _ (by simp), hr⟩
  case drained i h1 h2 h3 =>
    exact ⟨by simpa [State.workerReturn] using key i (.returned none) (by simp),
      by simpa [State.workerReturn] using hr⟩
  case readFail i p e h1 h2 h3 =>
    exact ⟨by simpa [State.workerReturn] using key i (.returned (some (.read e))) (by simp),
      by simpa [State.workerReturn] using hr⟩
  case readOk i p d h1 h2 h3 =>
    refine ⟨?_, hr⟩
    intro j r hjr
    by_cases hji : j = i
    · subst hji
      simp at hjr
      subst hjr
      exact ⟨d, h3, rfl⟩
    · simp only [Function.update_noteq hji] at hjr
      exact ho j r hjr
  case deliverClosed i r h1 h2 h3 => exact ⟨ho, hr⟩
  case deliver i r h1 h2 h3 h4 =>
    refine ⟨key i _ (by simp), ?_⟩
    intro r' hr'
    simp only [List.mem_append, List.mem_singleton] at hr'
    rcases hr' with h' | rfl
    · exact hr r' h'
    · obtain ⟨d, hd, he⟩ := ho i r' h2
      exact ⟨d, i, hd, he⟩
  case abandon i r h1 h2 h3 =>
    exact ⟨by simpa [State.workerReturn] using key i (.returned (some .canceled)) (by simp),
      by simpa [State.workerReturn] using hr⟩
  case waitReturns h1 h2 h3 => exact ⟨ho, hr⟩
  case closeMd5Ch h1 h2 => exact ⟨ho, hr⟩
  case sinkExit h1 h2 h3 => exact ⟨ho, hr⟩

theorem recordInv_of_reachable {env : Env} {cmdArgs : args} {s : State}
    (h : Reachable env cmdArgs s) : RecordInv env s := by
  induction h with
  | init => exact ⟨by simp [State.init], by simp [State.init]⟩
  | step a _ hs ih => exact recordInv_step (step_sound hs) ih

/-! ## The claims -/

/-- C1. In every complete execution of the pipeline (the sink has left its
loop) in which no walk error and no read error occurred, whatever the
schedule of the goroutines, every matching file was read successfully and the
multiset of `(path, checkSum)` pairs the sink received is exactly the multiset
of `(p, MD5(content p))` over the non-directory entries of the walk whose
name the pattern matches. -/
theorem sink_receives_exactly_the_matching_files (env : Env) (cmdArgs : args)
    (sched : List Action) (s : State)
    (hrun : exec env cmdArgs (State.init env cmdArgs) sched = some s)
    (hdone : s.sinkDone = true) (hok : ¬ s.WalkOrReadFailed) :
    (∀ p ∈ matchingPaths env cmdArgs (env.walk cmdArgs.directory),
        ∃ data, env.readFile p = .ok data) ∧
    (Multiset.ofList (s.received.map (fun r => (r.path, r.checkSum)))
      = Multiset.ofList ((matchingPaths env cmdArgs (env.walk cmdArgs.directory)).map
          (fun p => (p, md5Sum (fileContent env p))))) := by
  have hreach := reachable_of_exec hrun
  have hsh := shutdownInv_of_reachable hreach
  have hntf : ¬ s.TaskFailed := fun h => hok ((errorInv_of_reachable hreach).failWhy h)
  have hall : s.allReturned := hsh.waited (by rw [hsh.sink hdone]; simp)
  have hpaths := paths_of_reachable hreach hntf
  have hsum : (∑ i, (s.workers i).held) = 0 := by
    apply Finset.sum_eq_zero
    intro i _
    obtain ⟨e, he⟩ := hall.2 i
    simp [he]
  have hpend : s.disc.pending env cmdArgs = 0 := by
    obtain ⟨e, he⟩ := hall.1
    simp [he, Disc.pending]
  simp only [State.paths, hsum, hpend, add_zero] at hpaths
  have hrec := (recordInv_of_reachable hreach).received
  have hmap : s.received.map (fun r => (r.path, r.checkSum))
      = (s.received.map md5result.path).map (fun p => (p, md5Sum (fileContent env p))) := by
    rw [List.map_map]
    apply List.map_congr_left
    intro r hr
    obtain ⟨d, i, hd, he⟩ := hrec r hr
    have hc : r.checkSum = md5Sum d := by rw [he]
    simp [fileContent, hd, hc]
  refine ⟨?_, ?_⟩
  · intro p hp
    have hp' : p ∈ (Multiset.ofList (s.received.map md5result.path)) := by
      rw [hpaths]; exact hp
    simp only [Multiset.mem_coe, List.mem_map] at hp'
    obtain ⟨r, hr, rfl⟩ := hp'
    obtain ⟨d, i, hd, _⟩ := hrec r hr
    exact ⟨d, hd⟩
  · rw [hmap]
    have h := congrArg (Multiset.map (fun p => (p, md5Sum (fileContent env p)))) hpaths
    simpa only [Multiset.map_coe] using h

/-- Witness of C1: the example tree under the pattern `\.log$`. -/
theorem sink_receives_exactly_the_matching_files_witness :
    (exec logsEnv logsArgs (State.init logsEnv logsArgs) logsSchedule = some logsFinal
      ∧ logsFinal.sinkDone = true ∧ ¬ logsFinal.WalkOrReadFailed) ∧
    ((∀ p ∈ matchingPaths logsEnv logsArgs (logsEnv.walk logsArgs.directory),
        ∃ data, logsEnv.readFile p = .ok data) ∧
    (Multiset.ofList (logsFinal.received.map (fun r => (r.path, r.checkSum)))
      = Multiset.ofList ((matchingPaths logsEnv logsArgs (logsEnv.walk logsArgs.directory)).map
          (fun p => (p, md5Sum (fileContent logsEnv p)))))) :=
  have h1 : exec logsEnv logsArgs (State.init logsEnv logsArgs) logsSchedule = some logsFinal :=
    exec_getD (by decide)
  have h2 : logsFinal.sinkDone = true := by decide
  have h3 : ¬ logsFinal.WalkOrReadFailed := by decide
  ⟨⟨h1, h2, h3⟩,
    sink_receives_exactly_the_matching_files logsEnv logsArgs logsSchedule logsFinal h1 h2 h3⟩

/-- C3. In every execution the result stream is closed at most once, the close
comes only after `errGrp.Wait` has returned in stage 3 with stage 1 and all ten
workers returned, and no worker offers a record on the closed stream: no step
panics. -/
theorem result_stream_closed_once_after_all_tasks (env : Env) (cmdArgs : args)
    (sched : List Action) (s : State)
    (hrun : exec env cmdArgs (State.init env cmdArgs) sched = some s) :
    s.md5ChCloses ≤ 1 ∧
    (0 < s.md5ChCloses → s.closer = .done ∧ s.allReturned) ∧
    (∀ i r, s.workers i = .offering r → s.md5ChCloses = 0) ∧
    s.panicked = false ∧
    (∀ a t, step env cmdArgs s a = some t → t.panicked = false) := by
  have hreach := reachable_of_exec hrun
  have hsh := shutdownInv_of_reachable hreach
  have hdone : 0 < s.md5ChCloses → s.closer = .done := by
    intro h0
    by_contra hne
    have := hsh.closes
    simp [hne] at this
    omega
  refine ⟨?_, ?_, ?_, hsh.noPanic, ?_⟩
  · have := hsh.closes
    split at this <;> omega
  · intro h0
    have hd := hdone h0
    exact ⟨hd, hsh.waited (by rw [hd]; simp)⟩
  · intro i r hir
    by_contra hne
    have hd := hdone (Nat.pos_of_ne_zero hne)
    have := allReturned_worker (hsh.waited (by rw [hd]; simp)) i
    simp [hir] at this
  · intro a t hst
    exact (shutdownInv_of_reachable (Reachable.step a hreach hst)).noPanic

/-- Witness of C3: the complete run of the example tree. -/
theorem result_stream_closed_once_after_all_tasks_witness :
    exec logsEnv logsArgs (State.init logsEnv logsArgs) logsSchedule = some logsFinal ∧
    (logsFinal.md5ChCloses ≤ 1 ∧
    (0 < logsFinal.md5ChCloses → logsFinal.closer = .done ∧ logsFinal.allReturned) ∧
    (∀ i r, logsFinal.workers i = .offering r → logsFinal.md5ChCloses = 0) ∧
    logsFinal.panicked = false ∧
    (∀ a t, step logsEnv logsArgs logsFinal a = some t → t.panicked = false)) :=
  have h1 : exec logsEnv logsArgs (State.init logsEnv logsArgs) logsSchedule = some logsFinal :=
    exec_getD (by decide)
  ⟨h1, result_stream_closed_once_after_all_tasks logsEnv logsArgs logsSchedule logsFinal h1⟩

theorem run_eq_of_exec {env : Env} {flags : Flags} {sched : List Action} {s : State}
    (hout : (parseFlags flags).output ≠ "")
    (hrun : exec env (fillDefaults (parseFlags flags))
      (State.init env (fillDefaults (parseFlags flags))) sched = some s)
    (hdone : s.sinkDone = true) :
    run env flags sched
      = some ⟨if s.err.isSome then 1 else 0, some s, execFinalStage s.received⟩ := by
  simp only [run, hout, if_false, hrun, hdone, if_true]

theorem run_some {env : Env} {flags : Flags} {sched : List Action} {r : RunResult}
    (h : run env flags sched = some r) :
    ((parseFlags flags).output = "" ∧ r = ⟨2, none, []⟩) ∨
    ((parseFlags flags).output ≠ "" ∧ ∃ s,
      exec env (fillDefaults (parseFlags flags))
        (State.init env (fillDefaults (parseFlags flags))) sched = some s ∧
      s.sinkDone = true ∧
      r = ⟨if s.err.isSome then 1 else 0, some s, execFinalStage s.received⟩) := by
  unfold run at h
  simp only at h
  split at h
  · left; exact ⟨‹_›, by cases h; rfl⟩
  · right
    refine ⟨‹_›, ?_⟩
    split at h
    · cases h
    · rename_i s hs
      split at h
      · cases h; exact ⟨s, hs, ‹_›, rfl⟩
      · cases h

/-- C4 (amended). Whenever `run` returns, `flag.Parse()` has accepted the
command line and the exit code is 2 exactly when the output path is empty (and
then no stage was started, whatever the environment and the schedule);
otherwise the stages ran to the end and it is 1 exactly when the group reports
an error, which is exactly when stage 1 or some worker returned a non-nil
error, and 0 exactly when every task returned nil.  No other exit code is
returned. -/
theorem run_exit_code (env : Env) (cl : CommandLine) (sched : List Action) (r : RunResult)
    (h : runCommandLine env cl sched = some r) :
    ∃ flags, cl = .accepted flags ∧
    (r.exitCode = 2 ↔ (parseFlags flags).output = "") ∧
    (r.exitCode = 2 → r.pipeline = none ∧
      ∀ env' sched', runCommandLine env' cl sched' = some ⟨2, none, []⟩) ∧
    ((parseFlags flags).output ≠ "" → ∃ s, r.pipeline = some s ∧
      exec env (fillDefaults (parseFlags flags))
        (State.init env (fillDefaults (parseFlags flags))) sched = some s ∧
      s.sinkDone = true ∧
      (r.exitCode = 1 ↔ s.err.isSome = true) ∧
      (r.exitCode = 1 ↔ s.TaskFailed) ∧
      (r.exitCode = 0 ↔ (s.disc = .returned none ∧ ∀ i, s.workers i = .returned none))) ∧
    (r.exitCode = 0 ∨ r.exitCode = 1 ∨ r.exitCode = 2) := by
  cases cl with
  | rejected => simp [runCommandLine] at h
  | accepted flags =>
  refine ⟨flags, rfl, ?_⟩
  simp only [runCommandLine] at h ⊢
  rcases run_some h with ⟨hout, rfl⟩ | ⟨hout, s, hrun, hdone, rfl⟩
  · refine ⟨by simp [hout], fun _ => ⟨rfl, fun env' sched' => ?_⟩, fun hne => absurd hout hne,
      Or.inr (Or.inr rfl)⟩
    simp [run, hout]
  · have hreach := reachable_of_exec hrun
    have hsh := shutdownInv_of_reachable hreach
    have herr := (errorInv_of_reachable hreach).errIff
    have hall : s.allReturned := hsh.waited (by rw [hsh.sink hdone]; simp)
    have hnil : ¬ s.TaskFailed ↔ (s.disc = .returned none ∧ ∀ i, s.workers i = .returned none) := by
      constructor
      · intro hn
        refine ⟨?_, fun i => ?_⟩
        · obtain ⟨e, he⟩ := hall.1
          cases e with
          | none => exact he
          | some x => exact absurd (Or.inl (by simp [he])) hn
        · obtain ⟨e, he⟩ := hall.2 i
          cases e with
          | none => exact he
          | some x => exact absurd (Or.inr ⟨i, by simp [he]⟩) hn
      · rintro ⟨hd, hw⟩ (hf | ⟨i, hf⟩)
        · simp [hd] at hf
        · simp [hw i] at hf
    by_cases hs : s.err.isSome = true
    · have htf := herr.1 hs
      refine ⟨by simp [hs, hout], by simp [hs], fun _ => ⟨s, rfl, hrun, hdone, ?_, ?_, ?_⟩, ?_⟩
      · simp [hs]
      · simp [hs, htf]
      · simp only [hs, if_true, ← hnil]
        simp [htf]
      · simp [hs]
    · have htf : ¬ s.TaskFailed := fun hf => hs (herr.2 hf)
      refine ⟨by simp [hs, hout], by simp [hs], fun _ => ⟨s, rfl, hrun, hdone, ?_, ?_, ?_⟩, ?_⟩
      · simp [hs]
      · simp [hs, htf]
      · simp only [hs, if_false, ← hnil]
        simp [htf]
      · simp [hs]

/-- Witness of C4: the complete run of the example tree, which exits with 0. -/
theorem run_exit_code_witness :
    runCommandLine logsEnv (.accepted logsFlags) logsSchedule = some logsResult ∧
    (∃ flags, CommandLine.accepted logsFlags = .accepted flags ∧
    (logsResult.exitCode = 2 ↔ (parseFlags flags).output = "") ∧
    (logsResult.exitCode = 2 → logsResult.pipeline = none ∧
      ∀ env' sched',
        runCommandLine env' (.accepted logsFlags) sched' = some ⟨2, none, []⟩) ∧
    ((parseFlags flags).output ≠ "" → ∃ s, logsResult.pipeline = some s ∧
      exec logsEnv (fillDefaults (parseFlags flags))
        (State.init logsEnv (fillDefaults (parseFlags flags))) logsSchedule = some s ∧
      s.sinkDone = true ∧
      (logsResult.exitCode = 1 ↔ s.err.isSome = true) ∧
      (logsResult.exitCode = 1 ↔ s.TaskFailed) ∧
      (logsResult.exitCode = 0 ↔
        (s.disc = .returned none ∧ ∀ i, s.workers i = .returned none))) ∧
    (logsResult.exitCode = 0 ∨ logsResult.exitCode = 1 ∨ logsResult.exitCode = 2)) :=
  have h1 : exec logsEnv logsArgs (State.init logsEnv logsArgs) logsSchedule = some logsFinal :=
    exec_getD (by decide)
  have h2 : runCommandLine logsEnv (.accepted logsFlags) logsSchedule = some logsResult :=
    run_eq_of_exec (by decide) h1 (by decide)
  ⟨h2, run_exit_code logsEnv (.accepted logsFlags) logsSchedule logsResult h2⟩

/-- C5. If in a run of the pipeline a worker's read of a dequeued path fails,
then, whatever the rest of the schedule, a `run` that returns returns 1, never 0. -/
theorem read_failure_fails_the_run (env : Env) (flags : Flags) (pre post : List Action)
    (i : WorkerId) (p : String) (e : Nat) (s₁ : State) (r : RunResult)
    (hout : (parseFlags flags).output ≠ "")
    (hpre : exec env (fillDefaults (parseFlags flags))
      (State.init env (fillDefaults (parseFlags flags))) pre = some s₁)
    (hread : s₁.workers i = .reading p) (hfail : env.readFile p = .error e)
    (h : run env flags (pre ++ Action.read i :: post) = some r) :
    r.exitCode = 1 ∧ r.exitCode ≠ 0 := by
  rcases run_some h with ⟨hout', _⟩ | ⟨_, s, hrun, hdone, rfl⟩
  · exact absurd hout' hout
  · have hreach := reachable_of_exec hrun
    have hp1 := (shutdownInv_of_reachable (reachable_of_exec hpre)).noPanic
    rw [exec_append, hpre] at hrun
    simp only [Option.bind, exec, step, hp1, start2ndStage, hread, hfail] at hrun
    have htf : (s₁.workerReturn i (some (.read e))).TaskFailed :=
      (taskFailed_workerReturn s₁ i _ (by simp [hread])).2 (Or.inl (by simp))
    have hs : s.err.isSome = true :=
      (errorInv_of_reachable hreach).errIff.2 (taskFailed_exec hrun htf)
    simp [hs]

/-- Witness of C5: the first unreadable file of `lockedEnv` fails the run. -/
theorem read_failure_fails_the_run_witness :
    ((parseFlags lockedFlags).output ≠ "" ∧
     exec lockedEnv lockedArgs (State.init lockedEnv lockedArgs) firstHandoff
       = some lockedHandedOff ∧
     lockedHandedOff.workers 0 = .reading "01.log" ∧
     lockedEnv.readFile "01.log" = .error 13 ∧
     run lockedEnv lockedFlags (firstHandoff ++ Action.read 0 :: unwind) = some lockedResult) ∧
    (lockedResult.exitCode = 1 ∧ lockedResult.exitCode ≠ 0) :=
  have h0 : (parseFlags lockedFlags).output ≠ "" := by decide
  have h1 : exec lockedEnv lockedArgs (State.init lockedEnv lockedArgs) firstHandoff
      = some lockedHandedOff := exec_getD (by decide)
  have h2 : lockedHandedOff.workers 0 = .reading "01.log" := by decide
  have h3 : lockedEnv.readFile "01.log" = .error 13 := rfl
  have h4 : run lockedEnv lockedFlags (firstHandoff ++ Action.read 0 :: unwind)
      = some lockedResult := run_eq_of_exec h0 (exec_getD (by decide)) (by decide)
  ⟨⟨h0, h1, h2, h3, h4⟩,
    read_failure_fails_the_run lockedEnv lockedFlags firstHandoff unwind 0 "01.log" 13
      lockedHandedOff lockedResult h0 h1 h2 h3 h4⟩

theorem worker_reading_step {env : Env} {cmdArgs : args} {s t : State}
    (h : Step env cmdArgs s t) {i : WorkerId} {p : String} (hi : s.workers i = .reading p) :
    t.workers i = .reading p ∨
    (∃ e, env.readFile p = .error e ∧ t.workers i = .returned (some (.read e))) ∨
    (∃ d, env.readFile p = .ok d ∧ t.workers i = .offering ⟨p, md5Sum d, workerName i⟩) := by
  have key : ∀ (j : WorkerId) (x : Worker), s.workers j ≠ .reading p →
      Function.update s.workers j x i = .reading p := by
    intro j x hj
    have hne : i ≠ j := by
      rintro rfl
      exact hj hi
    simp [Function.update_noteq hne, hi]
  cases h
  case visitEnd h1 h2 => left; simpa [State.discReturn] using hi
  case visitFail v rest e h1 h2 h3 => left; simpa [State.discReturn] using hi
  case visitNext v rest h1 h2 h3 => exact Or.inl hi
  case visitPush v rest q h1 h2 h3 => exact Or.inl hi
  case visitNoPush v rest h1 h2 h3 => exact Or.inl hi
  case pollCancelled rest h1 h2 h3 => left; simpa [State.discReturn] using hi
  case pollOn rest h1 h2 h3 => exact Or.inl hi
  case handoff j q rest h1 h2 h3 => exact Or.inl (key j _ (by simp [h3]))
  case drained j h1 h2 h3 =>
    left; simpa [State.workerReturn] using key j (.returned none) (by simp [h2])
  case readFail j q e h1 h2 h3 =>
    by_cases hij : i = j
    · subst hij
      rw [hi] at h2
      cases h2
      right; left
      exact ⟨e, h3, by simp [State.workerReturn]⟩
    · left
      simp [State.workerReturn, Function.update_noteq hij, hi]
  case readOk j q d h1 h2 h3 =>
    by_cases hij : i = j
    · subst hij
      rw [hi] at h2
      cases h2
      right; right
      exact ⟨d, h3, by simp⟩
    · left
      simp [Function.update_noteq hij, hi]
  case deliverClosed j r h1 h2 h3 => exact Or.inl hi
  case deliver j r h1 h2 h3 h4 => exact Or.inl (key j _ (by simp [h2]))
  case abandon j r h1 h2 h3 =>
    left; simpa [State.workerReturn] using key j (.returned (some .canceled)) (by simp [h2])
  case waitReturns h1 h2 h3 => exact Or.inl hi
  case closeMd5Ch h1 h2 => exact Or.inl hi
  case sinkExit h1 h2 h3 => exact Or.inl hi

/-- C10. In every reachable state, for a worker `i` holding a dequeued path `p`:
its next step is the read; when the read fails the worker returns that error,
nothing is delivered and the worker stays returned, so it offers no record for
`p`; when the read gives bytes `d` the worker offers exactly
`(p, MD5(d), name of worker i)`; and no other step changes what the worker
holds.  Hence every record offered or received carries the MD5 of the bytes read
from its path, and records of files with equal bytes have equal digests. -/
theorem worker_record_is_md5_of_content (env : Env) (cmdArgs : args)
    (sched : List Action) (s : State)
    (hrun : exec env cmdArgs (State.init env cmdArgs) sched = some s) :
    (∀ i p, s.workers i = .reading p →
      (∀ e, env.readFile p = .error e → ∃ t, step env cmdArgs s (.read i) = some t ∧
        t.workers i = .returned (some (.read e)) ∧ t.received = s.received ∧
        ∀ post u, exec env cmdArgs t post = some u →
          u.workers i = .returned (some (.read e))) ∧
      (∀ d, env.readFile p = .ok d → ∃ t, step env cmdArgs s (.read i) = some t ∧
        t.workers i = .offering ⟨p, md5Sum d, workerName i⟩ ∧ t.received = s.received) ∧
      (∀ a t, step env cmdArgs s a = some t →
        t.workers i = .reading p ∨
        (∃ e, env.readFile p = .error e ∧ t.workers i = .returned (some (.read e))) ∨
        (∃ d, env.readFile p = .ok d ∧
          t.workers i = .offering ⟨p, md5Sum d, workerName i⟩))) ∧
    (∀ i r, s.workers i = .offering r →
      ∃ d, env.readFile r.path = .ok d ∧ r = ⟨r.path, md5Sum d, workerName i⟩) ∧
    (∀ r ∈ s.received,
      ∃ d i, env.readFile r.path = .ok d ∧ r = ⟨r.path, md5Sum d, workerName i⟩) ∧
    (∀ r₁ ∈ s.received, ∀ r₂ ∈ s.received,
      fileContent env r₁.path = fileContent env r₂.path → r₁.checkSum = r₂.checkSum) := by
  have hreach := reachable_of_exec hrun
  have hp := (shutdownInv_of_reachable hreach).noPanic
  have hrec := recordInv_of_reachable hreach
  refine ⟨fun i p hi => ⟨fun e he => ?_, fun d hd => ?_, fun a t hst => ?_⟩,
    hrec.offered, hrec.received, ?_⟩
  · refine ⟨s.workerReturn i (some (.read e)), ?_, by simp [State.workerReturn],
      by simp [State.workerReturn], fun post u hu => ?_⟩
    · simp [step, hp, start2ndStage, hi, he]
    · exact worker_returned_exec hu (by simp [State.workerReturn])
  · let r : md5result := ⟨p, md5Sum d, workerName i⟩
    refine ⟨{ s with workers := Function.update s.workers i (.offering r) }, ?_, by simp [r], rfl⟩
    simp [step, hp, start2ndStage, hi, hd, r]
  · exact worker_reading_step (step_sound hst) hi
  · intro r₁ h₁ r₂ h₂ hc
    obtain ⟨d₁, _, hd₁, e₁⟩ := hrec.received r₁ h₁
    obtain ⟨d₂, _, hd₂, e₂⟩ := hrec.received r₂ h₂
    have c₁ : r₁.checkSum = md5Sum d₁ := by rw [e₁]
    have c₂ : r₂.checkSum = md5Sum d₂ := by rw [e₂]
    simp only [fileContent, hd₁, hd₂] at hc
    rw [c₁, c₂, hc]

/-- Witness of C10: the example tree when worker 0 holds `x.log`. -/
theorem worker_record_is_md5_of_content_witness :
    exec logsEnv logsArgs (State.init logsEnv logsArgs) firstHandoff = some logsHandedOff ∧
    logsHandedOff.workers 0 = .reading "x.log" ∧
    (∃ t, step logsEnv logsArgs logsHandedOff (.read 0) = some t ∧
      t.workers 0 = .offering ⟨"x.log", md5Sum (bytesOf "hello"), workerName 0⟩ ∧
      t.received = logsHandedOff.received) :=
  have h1 : exec logsEnv logsArgs (State.init logsEnv logsArgs) firstHandoff
      = some logsHandedOff := exec_getD (by decide)
  have h2 : logsHandedOff.workers 0 = .reading "x.log" := by decide
  ⟨h1, h2,
    ((worker_record_is_md5_of_content logsEnv logsArgs firstHandoff logsHandedOff h1).1
      0 "x.log" h2).2.1 (bytesOf "hello") rfl⟩

/-- C8. For an entry the walk hands to the callback without an error, the
callback pushes the entry's path onto the path stream exactly when the entry is
not a directory and `regexp.Match` accepts its name; it pushes no other path; a
directory is passed over even when its name matches; and two non-directory
entries with the same name get the same decision, whatever their paths. -/
theorem walk_pushes_iff_file_and_name_matches (env : Env) (cmdArgs : args) (v : Visit)
    (hv : v.err = none) :
    (walkFn env cmdArgs v = .push v.path ↔
      (v.isDir = false ∧ (env.regexpMatch cmdArgs.pattern v.name).1 = true)) ∧
    (∀ p, walkFn env cmdArgs v = .push p → p = v.path) ∧
    (v.isDir = true → walkFn env cmdArgs v = .next) ∧
    (∀ s rest, s.panicked = false → s.disc = .walking (v :: rest) →
      ∃ t, step env cmdArgs s .visit = some t ∧
        (t.disc = .sending v.path rest ↔
          (v.isDir = false ∧ (env.regexpMatch cmdArgs.pattern v.name).1 = true)) ∧
        (∀ p r, t.disc = .sending p r → p = v.path ∧ r = rest)) ∧
    (∀ w : Visit, w.err = none → w.isDir = false → v.isDir = false → w.name = v.name →
      (walkFn env cmdArgs w = .push w.path ↔ walkFn env cmdArgs v = .push v.path)) := by
  have hiff : ∀ u : Visit, u.err = none → (walkFn env cmdArgs u = .push u.path ↔
      (u.isDir = false ∧ (env.regexpMatch cmdArgs.pattern u.name).1 = true)) := by
    intro u hu
    unfold walkFn
    rw [hu]
    by_cases hd : u.isDir = true
    · simp [hd]
    · by_cases hm : (env.regexpMatch cmdArgs.pattern u.name).1 = true
      · simp [hd, hm]
      · simp [hd, hm]
  refine ⟨hiff v hv, fun p hp => (walkFn_push hp).2.2.2, fun hd => ?_, fun s rest hp hs => ?_,
    fun w hw hwd hvd hn => ?_⟩
  · unfold walkFn
    simp [hv, hd]
  · cases hw : walkFn env cmdArgs v with
    | fail e =>
      obtain ⟨c, rfl⟩ := walkFn_fail hw
      unfold walkFn at hw
      simp [hv] at hw
      split at hw
      · cases hw
      · split at hw <;> cases hw
    | next =>
      refine ⟨{ s with disc := .walking rest }, by simp [step, hp, start1stStage, hs, hw], ?_, ?_⟩
      · have := walkFn_next hw
        simp [this.2]
      · intro p r h; simp at h
    | push q =>
      obtain ⟨_, hd, hm, rfl⟩ := walkFn_push hw
      refine ⟨{ s with disc := .sending v.path rest },
        by simp [step, hp, start1stStage, hs, hw], ?_, ?_⟩
      · simp [hd, hm]
      · intro p r h
        simp at h
        exact ⟨h.1.symm, h.2.symm⟩
    | noPush =>
      refine ⟨{ s with disc := .polling rest }, by simp [step, hp, start1stStage, hs, hw], ?_, ?_⟩
      · have := walkFn_noPush hw
        simp [this.2.2]
      · intro p r h; simp at h
  · rw [hiff w hw, hiff v hv, hn]
    simp [hwd, hvd]

/-- Witness of C8: `a.txt` inside `bdir` under a pattern its name matches. -/
theorem walk_pushes_iff_file_and_name_matches_witness :
    (⟨"bdir/a.txt", "a.txt", false, none⟩ : Visit).err = none ∧
    walkFn logsEnv ⟨".", "\\.txt$", "out.xlsx"⟩ ⟨"bdir/a.txt", "a.txt", false, none⟩
      = .push "bdir/a.txt" :=
  ⟨rfl, (walk_pushes_iff_file_and_name_matches logsEnv ⟨".", "\\.txt$", "out.xlsx"⟩
    ⟨"bdir/a.txt", "a.txt", false, none⟩ rfl).1.2 (by decide)⟩

/-! ### The sheet -/

theorem cellValue_writeRows_below (row : Nat) (rs : List md5result) (r c : Nat) (h : r < row) :
    cellValue (writeRows row rs) r c = none := by
  induction rs generalizing row with
  | nil => rfl
  | cons x xs ih =>
    have h1 : row ≠ r := by omega
    simp [writeRows, cellValue, ih (row + 1) (by omega), h1]

theorem cellValue_writeRows_col (row : Nat) (rs : List md5result) (r c : Nat)
    (h1 : c ≠ 1) (h2 : c ≠ 2) : cellValue (writeRows row rs) r c = none := by
  induction rs generalizing row with
  | nil => rfl
  | cons x xs ih =>
    simp [writeRows, cellValue, ih (row + 1), Ne.symm h1, Ne.symm h2]

theorem cellValue_writeRows (row : Nat) (rs : List md5result) (k : Nat) :
    cellValue (writeRows row rs) (row + k) 1 = (rs[k]?).map (fun r => r.path) ∧
    cellValue (writeRows row rs) (row + k) 2 = (rs[k]?).map (fun r => sprintfHex r.checkSum) := by
  induction rs generalizing row k with
  | nil => simp [writeRows, cellValue]
  | cons x xs ih =>
    cases k with
    | zero =>
      simp [writeRows, cellValue, cellValue_writeRows_below (row + 1) xs row _ (by omega)]
    | succ k =>
      have h := ih (row + 1) k
      have e : row + 1 + k = row + (k + 1) := by omega
      rw [e] at h
      simp only [writeRows, cellValue, h.1, h.2, List.getElem?_cons_succ]
      constructor
      · cases xs[k]? <;> simp
      · cases xs[k]? <;> simp

theorem hexVal_hexDigit (n : Fin 16) : hexVal (hexDigit n.val) = some n.val := by
  revert n; decide

theorem hexDigit_mem (n : Fin 16) : hexDigit n.val ∈ "0123456789abcdef".toList := by
  revert n; decide

theorem hexDecode_hexChars (bs : List Byte) : hexDecode (hexChars bs) = some bs := by
  induction bs with
  | nil => rfl
  | cons b bs ih =>
    have h1 := hexVal_hexDigit ⟨b.val / 16, by omega⟩
    have h2 := hexVal_hexDigit ⟨b.val % 16, by omega⟩
    simp only at h1 h2
    have hb : (Fin.ofNat (16 * (b.val / 16) + b.val % 16) : Byte) = b := by
      apply Fin.ext
      simp only [Fin.ofNat, Nat.div_add_mod]
      exact Nat.mod_eq_of_lt b.isLt
    have hc : hexChars (b :: bs) = hexDigit (b.val / 16) :: hexDigit (b.val % 16) :: hexChars bs := by
      simp [hexChars, hexByte]
    rw [hc]
    simp only [hexDecode, h1, h2, ih]
    rw [hb]

theorem hexChars_length (bs : List Byte) : (hexChars bs).length = 2 * bs.length := by
  induction bs with
  | nil => rfl
  | cons b bs ih =>
    have hc : hexChars (b :: bs) = hexDigit (b.val / 16) :: hexDigit (b.val % 16) :: hexChars bs := by
      simp [hexChars, hexByte]
    rw [hc]
    simp only [List.length_cons, ih]
    omega

theorem hexChars_lower (bs : List Byte) :
    ∀ ch ∈ hexChars bs, ch ∈ "0123456789abcdef".toList := by
  intro ch hch
  simp only [hexChars, List.mem_flatMap, hexByte, List.mem_cons, List.mem_singleton,
    List.not_mem_nil, or_false] at hch
  obtain ⟨b, _, rfl | rfl⟩ := hch
  · exact hexDigit_mem ⟨b.val / 16, by omega⟩
  · exact hexDigit_mem ⟨b.val % 16, by omega⟩

theorem writeRows_length (row : Nat) (rs : List md5result) :
    (writeRows row rs).length = 2 * rs.length := by
  induction rs generalizing row with
  | nil => rfl
  | cons x xs ih => simp only [writeRows, List.length_cons, ih]; omega

/-- C9. For the records `execFinalStage` receives, in arrival order, the cell
`(k, 1)` holds the path and the cell `(k, 2)` the hexadecimal checksum of the
`k`-th record, rows counted from 1; rows past the last record, row 0 and all
other columns stay empty; two cells are written per record; the checksum is
rendered as 32 lowercase hexadecimal characters which decode back to its 16
bytes. -/
theorem sheet_rows_follow_arrival_order (records : List md5result) (k col : Nat)
    (c : Checksum) :
    cellValue (execFinalStage records) (k + 1) 1 = (records[k]?).map (fun r => r.path) ∧
    cellValue (execFinalStage records) (k + 1) 2
      = (records[k]?).map (fun r => sprintfHex r.checkSum) ∧
    cellValue (execFinalStage records) 0 col = none ∧
    cellValue (execFinalStage records) k (col + 3) = none ∧
    cellValue (execFinalStage records) k 0 = none ∧
    cellValue (execFinalStage records) (records.length + 1 + k) col = none ∧
    (execFinalStage records).length = 2 * records.length ∧
    (sprintfHex c).length = 32 ∧
    (∀ ch ∈ (sprintfHex c).toList, ch ∈ "0123456789abcdef".toList) ∧
    hexDecode (sprintfHex c).toList = some c.bytes ∧
    c.bytes.length = 16 := by
  have h := cellValue_writeRows 1 records k
  rw [Nat.add_comm 1 k] at h
  refine ⟨h.1, h.2, cellValue_writeRows_below 1 records 0 col (by omega),
    cellValue_writeRows_col 1 records k (col + 3) (by omega) (by omega),
    cellValue_writeRows_col 1 records k 0 (by omega) (by omega), ?_,
    writeRows_length 1 records, ?_, hexChars_lower c.bytes, hexDecode_hexChars c.bytes, c.size⟩
  · by_cases h1 : col = 1
    · subst h1
      have := (cellValue_writeRows 1 records (records.length + k)).1
      rw [show 1 + (records.length + k) = records.length + 1 + k by omega] at this
      rw [execFinalStage, this]
      simp
    · by_cases h2 : col = 2
      · subst h2
        have := (cellValue_writeRows 1 records (records.length + k)).2
        rw [show 1 + (records.length + k) = records.length + 1 + k by omega] at this
        rw [execFinalStage, this]
        simp
      · exact cellValue_writeRows_col 1 records _ col h1 h2
  · show (String.mk (hexChars c.bytes)).length = 32
    rw [String.length, hexChars_length, c.size]
    rfl

theorem isNone_step_of_blocked {env : Env} {cmdArgs : args} {s : State}
    (h1 : (step env cmdArgs s .visit).isNone = true)
    (h2 : (step env cmdArgs s .poll).isNone = true)
    (h3 : ∀ i, (step env cmdArgs s (.handoff i)).isNone = true)
    (h4 : ∀ i, (step env cmdArgs s (.drained i)).isNone = true)
    (h5 : ∀ i, (step env cmdArgs s (.read i)).isNone = true)
    (h6 : ∀ i, (step env cmdArgs s (.deliver i)).isNone = true)
    (h7 : ∀ i, (step env cmdArgs s (.abandon i)).isNone = true)
    (h8 : (step env cmdArgs s .waitReturns).isNone = true)
    (h9 : (step env cmdArgs s .closeMd5Ch).isNone = true)
    (h10 : (step env cmdArgs s .sinkExit).isNone = true) :
    ∀ a, step env cmdArgs s a = none := by
  intro a
  apply Option.isNone_iff_eq_none.1
  cases a
  · exact h1
  · exact h2
  · exact h3 _
  · exact h4 _
  · exact h5 _
  · exact h6 _
  · exact h7 _
  · exact h8
  · exact h9
  · exact h10

theorem sheet_empty_of_no_match {env : Env} {flags : Flags} {sched : List Action}
    {r : RunResult}
    (hm : matchingPaths env (fillDefaults (parseFlags flags))
      (env.walk (fillDefaults (parseFlags flags)).directory) = [])
    (h : run env flags sched = some r) : r.sheet = [] := by
  rcases run_some h with ⟨_, rfl⟩ | ⟨_, s, hrun, _, rfl⟩
  · rfl
  · have hreach := reachable_of_exec hrun
    have hrec : s.received = [] := by
      cases hl : s.received with
      | nil => rfl
      | cons x xs =>
        have := received_path_mem hreach (r := x) (by simp [hl])
        rw [hm] at this
        simp at this
    simp [hrec, execFinalStage, writeRows]

theorem stuckState_blocked : ∀ a, step lockedEnv lockedArgs stuckState a = none :=
  isNone_step_of_blocked (by decide) (by decide) (by decide) (by decide) (by decide)
    (by decide) (by decide) (by decide) (by decide) (by decide)

theorem exec_stuckState (sched : List Action) :
    exec lockedEnv lockedArgs stuckState sched = some stuckState ∨
      exec lockedEnv lockedArgs stuckState sched = none := by
  cases sched with
  | nil => exact Or.inl rfl
  | cons a as => right; simp [exec, stuckState_blocked a]

/-- C2 (the code does not do this). A directory of eleven matching files that
cannot be read: stage 1 hands ten of them out, passing its cancellation check
each time, and blocks on the send of the eleventh; the ten reads fail and the
workers return.  The state is reachable, a task has failed and the context is
cancelled, yet stage 1 is blocked on `filePathCh <- path` with every worker
gone, the result stream is open, the sink has not finished, and no step is
enabled. -/
theorem discoverer_blocked_after_all_workers_failed :
    exec lockedEnv lockedArgs (State.init lockedEnv lockedArgs) stuckSchedule
      = some stuckState ∧
    stuckState.cancelled = true ∧
    stuckState.err = some (.read 13) ∧
    stuckState.disc = .sending "11.log" [] ∧
    (∀ i, stuckState.workers i = .returned (some (.read 13))) ∧
    stuckState.closer = .waiting ∧
    stuckState.md5ChCloses = 0 ∧
    stuckState.sinkDone = false ∧
    (∀ a, step lockedEnv lockedArgs stuckState a = none) ∧
    (∀ sched, exec lockedEnv lockedArgs stuckState sched = some stuckState ∨
      exec lockedEnv lockedArgs stuckState sched = none) := by
  exact ⟨exec_getD (by decide), by decide, by decide, by decide, by decide, by decide,
    by decide, by decide, stuckState_blocked, exec_stuckState⟩

/-- C4, as stated, fails.  In the tree of eleven unreadable files the output
path is given and `flag.Parse()` accepts the command line; after
`stuckSchedule` the group reports an error, ten workers having returned one;
yet however the schedule goes on, `run` does not return: it returns neither 1
nor any other exit code.  A command line `flag.Parse()` rejects does not make
`run` return either. -/
theorem run_blocks_with_failed_group :
    (parseFlags lockedFlags).output ≠ "" ∧
    exec lockedEnv (fillDefaults (parseFlags lockedFlags))
      (State.init lockedEnv (fillDefaults (parseFlags lockedFlags))) stuckSchedule
      = some stuckState ∧
    stuckState.err = some (.read 13) ∧
    stuckState.TaskFailed ∧
    (∀ i, stuckState.workers i = .returned (some (.read 13))) ∧
    (∀ post, runCommandLine lockedEnv (.accepted lockedFlags) (stuckSchedule ++ post) = none) ∧
    (∀ post r, runCommandLine lockedEnv (.accepted lockedFlags) (stuckSchedule ++ post)
      ≠ some r) ∧
    (∀ env sched, runCommandLine env .rejected sched = none) := by
  have h1 : exec lockedEnv lockedArgs (State.init lockedEnv lockedArgs) stuckSchedule
      = some stuckState := exec_getD (by decide)
  have hnone : ∀ post,
      runCommandLine lockedEnv (.accepted lockedFlags) (stuckSchedule ++ post) = none := by
    intro post
    have hout : (parseFlags lockedFlags).output ≠ "" := by decide
    have hx : exec lockedEnv (fillDefaults (parseFlags lockedFlags))
        (State.init lockedEnv (fillDefaults (parseFlags lockedFlags))) (stuckSchedule ++ post)
        = exec lockedEnv lockedArgs stuckState post := by
      show exec lockedEnv lockedArgs (State.init lockedEnv lockedArgs) (stuckSchedule ++ post) = _
      rw [exec_append, h1]
      rfl
    have hd : stuckState.sinkDone = false := by decide
    simp only [runCommandLine, run, hout, if_false, hx]
    rcases exec_stuckState post with h | h
    · simp [h, hd]
    · simp [h]
  exact ⟨by decide, h1, by decide, by decide, by decide, hnone,
    fun post r h => by simp [hnone post] at h, fun _ _ => rfl⟩

/-- C6 (the code does not do this). The pattern is handed to `regexp.Match`,
not to a glob matcher: `*.txt` and `*.log` are not regular expressions, the
error is dropped, and nothing matches.  `a.txt` inside `bdir` is not pushed
under `*.txt`; in the example tree under `*.log` no path is pushed, a run
succeeds with exit code 0, and every run that returns leaves the sheet empty. -/
theorem glob_pattern_matches_no_file :
    goRegexpMatch "*.txt" "a.txt" = (false, some .missingRepeatArgument) ∧
    filepathWalk "." bdirListing
      = [⟨".", ".", true, none⟩, ⟨"bdir", "bdir", true, none⟩,
         ⟨"bdir/a.txt", "a.txt", false, none⟩] ∧
    walkFn logsEnv ⟨".", "*.txt", "out.xlsx"⟩ ⟨"bdir/a.txt", "a.txt", false, none⟩ = .noPush ∧
    (∀ name, goRegexpMatch "*.log" name = (false, some .missingRepeatArgument)) ∧
    matchingPaths logsEnv (fillDefaults (parseFlags globFlags)) (logsEnv.walk ".") = [] ∧
    (run logsEnv globFlags quietSchedule).map (fun r => (r.exitCode, r.sheet))
      = some (0, []) ∧
    (∀ sched r, run logsEnv globFlags sched = some r → r.sheet = []) :=
  ⟨by decide, by decide, by decide, fun _ => rfl, by decide, by decide,
    fun _ _ h => sheet_empty_of_no_match (by decide) h⟩

/-- C7 (the code does not do this). With the pattern left out or empty `run`
uses `*.*`, which `regexp.Match` rejects for every name: no entry is ever
pushed, whatever its name, and every run of the example tree that returns
leaves the sheet empty. -/
theorem default_pattern_matches_no_file :
    (∀ d o, (fillDefaults (parseFlags ⟨d, none, o⟩)).pattern = "*.*" ∧
      (fillDefaults (parseFlags ⟨d, some "", o⟩)).pattern = "*.*") ∧
    (∀ name, goRegexpMatch "*.*" name = (false, some .missingRepeatArgument)) ∧
    (∀ (env : Env) (cmdArgs : args) (v : Visit) (p : String),
      env.regexpMatch = goRegexpMatch → cmdArgs.pattern = "*.*" →
        walkFn env cmdArgs v ≠ .push p) ∧
    matchingPaths logsEnv (fillDefaults (parseFlags defaultFlags)) (logsEnv.walk ".") = [] ∧
    (run logsEnv defaultFlags quietSchedule).map (fun r => (r.exitCode, r.sheet))
      = some (0, []) ∧
    (∀ sched r, run logsEnv defaultFlags sched = some r → r.sheet = []) := by
  refine ⟨fun d o => ⟨rfl, rfl⟩, fun _ => rfl, ?_, by decide, by decide,
    fun _ _ h => sheet_empty_of_no_match (by decide) h⟩
  intro env cmdArgs v p he hp hpush
  have := (walkFn_push hpush).2.2.1
  rw [he, hp] at this
  exact absurd this (by simp [show goRegexpMatch "*.*" v.name = (false, some .missingRepeatArgument) from rfl])

/-! ## Checks of the library models on known values -/

theorem md5Sum_known_digests :
    sprintfHex (md5Sum (bytesOf "")) = "d41d8cd98f00b204e9800998ecf8427e" ∧
    sprintfHex (md5Sum (bytesOf "hello")) = "5d41402abc4b2a76b9719d911017c592" ∧
    sprintfHex (md5Sum (bytesOf "world")) = "7d793037a0760186574b0282f2f435e7" := by
  decide!

theorem goRegexpMatch_known_answers :
    goRegexpMatch "\\.log$" "x.log" = (true, none) ∧
    goRegexpMatch "\\.log$" "z.txt" = (false, none) ∧
    goRegexpMatch "\\.log$" "x.logs" = (false, none) ∧
    goRegexpMatch "log" "01.log" = (true, none) ∧
    goRegexpMatch "^(a|b)+\\.txt$" "abba.txt" = (true, none) ∧
    goRegexpMatch "a**" "a" = (false, some .invalidRepeatOp) ∧
    goRegexpMatch "(a" "a" = (false, some .missingParen) := by
  decide

theorem logs_run_writes_two_rows :
    (run logsEnv logsFlags logsSchedule).map (fun r => (r.exitCode, r.sheet))
      = some (0, [⟨1, 1, "y.log"⟩, ⟨1, 2, "7d793037a0760186574b0282f2f435e7"⟩,
                  ⟨2, 1, "x.log"⟩, ⟨2, 2, "5d41402abc4b2a76b9719d911017c592"⟩]) := by
  decide!

end Xlsxmd5
